import Mathlib

/-!
Verification of the SVG scene-editing engine (SvgPreview.tsx and the editor-tools
module) against its design specification.

The TypeScript sources are shallowly embedded: the undo/redo history kept by
`SvgPreview` becomes an explicit `Hist` state, the DOM tree manipulated through
`DOMParser` becomes the mutual inductive `Elem`/`Forest` rose tree (attributes and
the inline style attribute are modelled as association lists of declarations),
and every mutation helper (`updateStyle`, `applyGradient`, `duplicateLayer`,
`moveLayer`, Ctrl+D duplication, `normalizeSvg`, the transform-overlay drag
handler) is translated into a pure function on that tree.  JavaScript numbers
passing through the string codec are modelled as exact rationals in an
unnormalized pair representation (`JNum`); `parseFloat` becomes a prefix
decimal parser, and the decimal rendering of a number is `JNum.render`
(exact on integers, which is all the verified scenarios print).  Geometry
that stays numeric (the rotation-handle arithmetic, the star vertices) is
modelled over `ℚ` and `ℝ` directly.
-/

set_option maxHeartbeats 1000000

namespace SvgStudio

/-! ## History manager (SvgPreview.tsx lines 216-217, 354-363)

`handleUpdate` truncates the log after the current index, appends, and advances;
`undo`/`redo` move the index by one inside the bounds.  The source keeps
`history : string[]`, `historyIndex : number` and `currentContent : string` in
React state; `Hist` packages the three. -/

structure Hist where
  log : List String
  idx : Nat
  cur : String
deriving DecidableEq

/-- `handleUpdate` (SvgPreview.tsx 354-360): `history.slice(0, historyIndex+1)`,
push the new content, set the index to the end. -/
def commit (h : Hist) (s : String) : Hist :=
  let newLog := h.log.take (h.idx + 1) ++ [s]
  ⟨newLog, newLog.length - 1, s⟩

/-- `undo` (SvgPreview.tsx 362): step back if the index is positive. -/
def undo (h : Hist) : Hist :=
  if 0 < h.idx then ⟨h.log, h.idx - 1, h.log.getD (h.idx - 1) ""⟩ else h

/-- `redo` (SvgPreview.tsx 363): step forward if the index is before the end. -/
def redo (h : Hist) : Hist :=
  if h.idx < h.log.length - 1 then ⟨h.log, h.idx + 1, h.log.getD (h.idx + 1) ""⟩ else h

/-- History creation on first load (SvgPreview.tsx 320-321):
`setHistory([normalizedContent]); setHistoryIndex(0)`. -/
def initHist (s : String) : Hist := ⟨[s], 0, s⟩

/-- The state invariant maintained by the history manager: the index is in
bounds and the current document is the snapshot at the index. -/
def Good (h : Hist) : Prop :=
  h.idx < h.log.length ∧ h.cur = h.log.getD h.idx ""

instance (h : Hist) : Decidable (Good h) := by unfold Good; infer_instance

inductive HOp where
  | u : HOp
  | r : HOp
deriving DecidableEq

def applyOp (h : Hist) : HOp → Hist
  | .u => undo h
  | .r => redo h

def runOps (h : Hist) (ops : List HOp) : Hist := ops.foldl applyOp h

def runCommits (h : Hist) (docs : List String) : Hist := docs.foldl commit h

theorem good_initHist (s : String) : Good (initHist s) := by
  constructor <;> simp [initHist]

theorem initHist_top (s : String) : (initHist s).idx + 1 = (initHist s).log.length := by
  simp [initHist]

theorem good_commit (h : Hist) (s : String) (hg : Good h) : Good (commit h s) := by
  obtain ⟨hb, _⟩ := hg
  have hlen : (h.log.take (h.idx + 1)).length = h.idx + 1 := by
    simp [List.length_take]; omega
  refine ⟨?_, ?_⟩
  · simp [commit]
  · show s = ((h.log.take (h.idx + 1) ++ [s]).getD
      ((h.log.take (h.idx + 1) ++ [s]).length - 1) "")
    rw [List.getD_eq_getElem?_getD]
    rw [List.length_append, hlen]
    simp only [List.length_cons, List.length_nil]
    rw [show h.idx + 1 + (0 + 1) - 1 = h.idx + 1 from by omega]
    rw [List.getElem?_append_right (by omega), hlen]
    simp

theorem commit_top (h : Hist) (s : String) :
    (commit h s).idx + 1 = (commit h s).log.length := by
  simp [commit]

theorem commit_log_length (h : Hist) (s : String) (hg : Good h) :
    (commit h s).log.length = h.idx + 2 := by
  obtain ⟨hb, _⟩ := hg
  simp [commit, List.length_take]
  omega

theorem good_undo (h : Hist) (hg : Good h) : Good (undo h) := by
  obtain ⟨hb, hc⟩ := hg
  unfold undo
  split
  · exact ⟨show h.idx - 1 < h.log.length from by omega, rfl⟩
  · exact ⟨hb, hc⟩

theorem good_redo (h : Hist) (hg : Good h) : Good (redo h) := by
  obtain ⟨hb, hc⟩ := hg
  unfold redo
  split
  · next hlt => exact ⟨show h.idx + 1 < h.log.length from by omega, rfl⟩
  · exact ⟨hb, hc⟩

theorem undo_log (h : Hist) : (undo h).log = h.log := by
  unfold undo; split <;> rfl

theorem redo_log (h : Hist) : (redo h).log = h.log := by
  unfold redo; split <;> rfl

theorem undo_at_zero (h : Hist) (h0 : h.idx = 0) : undo h = h := by
  unfold undo
  rw [if_neg (by omega)]

theorem redo_at_end (h : Hist) (he : h.idx + 1 = h.log.length) : redo h = h := by
  unfold redo
  rw [if_neg (by omega)]

theorem redo_undo_of_pos (h : Hist) (hg : Good h) (hpos : 0 < h.idx) :
    redo (undo h) = h := by
  obtain ⟨hb, hc⟩ := hg
  unfold undo
  rw [if_pos hpos]
  unfold redo
  rw [if_pos (show h.idx - 1 < h.log.length - 1 from by omega)]
  rw [show h.idx - 1 + 1 = h.idx from by omega]
  cases h with
  | mk l i c => simp_all

theorem runOps_cons (h : Hist) (o : HOp) (rest : List HOp) :
    runOps h (o :: rest) = runOps (applyOp h o) rest := rfl

theorem runCommits_cons (h : Hist) (d : String) (rest : List String) :
    runCommits h (d :: rest) = runCommits (commit h d) rest := rfl

theorem good_runOps (h : Hist) (ops : List HOp) (hg : Good h) :
    Good (runOps h ops) ∧ (runOps h ops).log = h.log := by
  induction ops generalizing h with
  | nil => exact ⟨hg, rfl⟩
  | cons o rest ih =>
    have step : Good (applyOp h o) ∧ (applyOp h o).log = h.log := by
      cases o
      · exact ⟨good_undo h hg, undo_log h⟩
      · exact ⟨good_redo h hg, redo_log h⟩
    have hrec := ih (applyOp h o) step.1
    rw [runOps_cons]
    exact ⟨hrec.1, by rw [hrec.2, step.2]⟩

theorem good_runCommits (h : Hist) (docs : List String)
    (hg : Good h) (ht : h.idx + 1 = h.log.length) :
    Good (runCommits h docs) ∧
      (runCommits h docs).idx + 1 = (runCommits h docs).log.length ∧
      (runCommits h docs).log.length = h.log.length + docs.length := by
  induction docs generalizing h with
  | nil => exact ⟨hg, ht, by simp [runCommits]⟩
  | cons d rest ih =>
    have hg' := good_commit h d hg
    have ht' := commit_top h d
    have hlen : (commit h d).log.length = h.log.length + 1 := by
      obtain ⟨hb, _⟩ := hg
      simp only [commit, List.length_append, List.length_take,
        List.length_cons, List.length_nil]
      omega
    have hrec := ih (commit h d) hg' ht'
    rw [runCommits_cons]
    refine ⟨hrec.1, hrec.2.1, ?_⟩
    rw [hrec.2.2, hlen]
    simp only [List.length_cons]
    omega

/-- Claim C2 (amended): starting from the initial load and any further commits,
any sequence of undo/redo calls keeps the log fixed and the index inside
`[0, N-1]` where `N` is the number of snapshots; the current document is always
the snapshot at the index; undo at index 0 and redo at the last index are
no-ops; and undo followed by redo restores the state exactly when the undo was
effective (index positive).  (As literally stated the claim fails at index 0:
there undo is a no-op but a following redo still advances — see the
counterexample.) -/
theorem history_bounds_amended (s : String) (docs : List String) (ops : List HOp) :
    (runCommits (initHist s) docs).log.length = docs.length + 1 ∧
    (runOps (runCommits (initHist s) docs) ops).log = (runCommits (initHist s) docs).log ∧
    (runOps (runCommits (initHist s) docs) ops).idx
      < (runOps (runCommits (initHist s) docs) ops).log.length ∧
    (runOps (runCommits (initHist s) docs) ops).cur
      = (runOps (runCommits (initHist s) docs) ops).log.getD
          (runOps (runCommits (initHist s) docs) ops).idx "" ∧
    ((runOps (runCommits (initHist s) docs) ops).idx = 0 →
      undo (runOps (runCommits (initHist s) docs) ops)
        = runOps (runCommits (initHist s) docs) ops) ∧
    ((runOps (runCommits (initHist s) docs) ops).idx + 1
        = (runOps (runCommits (initHist s) docs) ops).log.length →
      redo (runOps (runCommits (initHist s) docs) ops)
        = runOps (runCommits (initHist s) docs) ops) ∧
    (0 < (runOps (runCommits (initHist s) docs) ops).idx →
      redo (undo (runOps (runCommits (initHist s) docs) ops))
        = runOps (runCommits (initHist s) docs) ops) := by
  have hc := good_runCommits (initHist s) docs (good_initHist s) (initHist_top s)
  have ho := good_runOps (runCommits (initHist s) docs) ops hc.1
  refine ⟨?_, ho.2, ho.1.1, ho.1.2, ?_, ?_, ?_⟩
  · have hlen := hc.2.2
    rw [show (initHist s).log.length = 1 from rfl] at hlen
    omega
  · exact fun h0 => undo_at_zero _ h0
  · exact fun he => redo_at_end _ he
  · exact fun hpos => redo_undo_of_pos _ ho.1 hpos

/-- Witness for C2's amended theorem at a concrete instance: one load, one
commit, one undo; the final index is 1 and redo-after-undo restores the state. -/
theorem history_bounds_amended_witness :
    0 < (runOps (runCommits (initHist "A") ["B"]) []).idx ∧
    redo (undo (runOps (runCommits (initHist "A") ["B"]) []))
      = runOps (runCommits (initHist "A") ["B"]) [] :=
  ⟨by decide, (history_bounds_amended "A" ["B"] []).2.2.2.2.2.2 (by decide)⟩

/-- Counterexample to claim C2 as stated: after loading "A", committing "B" and
undoing once the index is 0; performing undo (a no-op) then redo does NOT
restore the text current before the undo — it advances to "B". -/
theorem undo_redo_at_zero_cex :
    (redo (undo (runOps (runCommits (initHist "A") ["B"]) [HOp.u]))).cur
      ≠ (runOps (runCommits (initHist "A") ["B"]) [HOp.u]).cur := by
  decide

/-- Claim C3: a commit truncates everything after the current index (the new
log keeps exactly the first index+1 entries, unchanged, plus the new snapshot),
the new state points at the appended snapshot, and a redo immediately after the
commit is a no-op (it changes neither index nor current document). -/
theorem commit_truncates_redo_noop (h : Hist) (s : String) (hg : Good h) :
    (commit h s).log.length = h.idx + 2 ∧
    (∀ k, k ≤ h.idx → (commit h s).log.getD k "" = h.log.getD k "") ∧
    (commit h s).idx = h.idx + 1 ∧
    (commit h s).cur = s ∧
    redo (commit h s) = commit h s := by
  obtain ⟨hb, hcur⟩ := hg
  refine ⟨commit_log_length h s ⟨hb, hcur⟩, ?_, ?_, rfl, ?_⟩
  · intro k hk
    show (h.log.take (h.idx + 1) ++ [s]).getD k "" = h.log.getD k ""
    rw [List.getD_eq_getElem?_getD, List.getD_eq_getElem?_getD]
    rw [List.getElem?_append_left (by simp [List.length_take]; omega)]
    rw [List.getElem?_take_of_lt (by omega)]
  · show (h.log.take (h.idx + 1) ++ [s]).length - 1 = h.idx + 1
    simp only [List.length_append, List.length_take, List.length_cons, List.length_nil]
    omega
  · exact redo_at_end _ (commit_top h s)

/-- Witness for C3 at a concrete instance. -/
theorem commit_truncates_redo_noop_witness :
    Good (initHist "A") ∧
    redo (commit (initHist "A") "B") = commit (initHist "A") "B" :=
  ⟨by decide, (commit_truncates_redo_noop (initHist "A") "B" (by decide)).2.2.2.2⟩


/-! ## Rotate-handle drag (SvgPreview.tsx 92-97)

`handleMove` for the rotation handle computes the pointer angle from the box
center with `atan2` (in degrees), subtracts the start angle, and sets
`newTransform.rotate = (startTransform.rotate + deltaRotation + 90) % 360`.
JavaScript `%` truncates toward zero, so the result keeps the sign of the
dividend.  The two `atan2` angle values enter the model as inputs. -/

/-- JavaScript-style truncation toward zero of a rational. -/
def ratTrunc (q : ℚ) : ℤ := if 0 ≤ q then ⌊q⌋ else ⌈q⌉

/-- JavaScript remainder `a % n` (sign of the dividend). -/
def jsMod (a n : ℚ) : ℚ := a - n * ratTrunc (a / n)

/-- The live rotation written during a rotate-handle drag (SvgPreview.tsx 97):
`(startTransform.rotate + deltaRotation + 90) % 360` where
`deltaRotation = currentAngle - startAngleVal`. -/
def rotateDragUpdate (startRot curAngle startAngle : ℚ) : ℚ :=
  jsMod (startRot + (curAngle - startAngle) + 90) 360

/-- Modelled from the spec: the normalization "into [0, 360)" the claim posits,
i.e. the canonical representative of `x` modulo 360 in `[0, 360)`. -/
def specNormalize360 (x : ℚ) : ℚ := x - 360 * ⌊x / 360⌋

theorem jsMod_bounds (a : ℚ) :
    -360 < jsMod a 360 ∧ jsMod a 360 < 360 ∧
      a - jsMod a 360 = 360 * ratTrunc (a / 360) := by
  refine ⟨?_, ?_, by unfold jsMod; ring⟩ <;>
  · unfold jsMod ratTrunc
    split
    · next hge =>
      have h1 : (0 : ℚ) ≤ a / 360 - ⌊a / 360⌋ := by
        have := Int.floor_le (a / 360)
        linarith
      have h2 : a / 360 - ⌊a / 360⌋ < 1 := by
        have := Int.lt_floor_add_one (a / 360)
        linarith
      have key : a - 360 * ⌊a / 360⌋ = 360 * (a / 360 - ⌊a / 360⌋) := by ring
      rw [key]
      nlinarith
    · next hlt =>
      have h1 : a / 360 - ⌈a / 360⌉ ≤ 0 := by
        have := Int.le_ceil (a / 360)
        linarith
      have h2 : (-1 : ℚ) < a / 360 - ⌈a / 360⌉ := by
        have := Int.ceil_lt_add_one (a / 360)
        linarith
      have key : a - 360 * ⌈a / 360⌉ = 360 * (a / 360 - ⌈a / 360⌉) := by ring
      rw [key]
      nlinarith

/-- Claim C5 (amended): the live rotation during a rotate-handle drag is the
JavaScript remainder of (start rotation + angular delta + 90) by 360 — it
carries an extra constant +90 offset ("for top handle") and, because JS `%`
keeps the dividend's sign, it lies in the open interval (−360, 360) rather
than being normalized into [0, 360); it agrees with
startRot + delta + 90 modulo 360. -/
theorem rotate_handle_amended (startRot curAngle startAngle : ℚ) :
    (-360 < rotateDragUpdate startRot curAngle startAngle ∧
      rotateDragUpdate startRot curAngle startAngle < 360) ∧
    ∃ k : ℤ, startRot + (curAngle - startAngle) + 90
        - rotateDragUpdate startRot curAngle startAngle = 360 * k := by
  have h := jsMod_bounds (startRot + (curAngle - startAngle) + 90)
  exact ⟨⟨h.1, h.2.1⟩, ⟨ratTrunc ((startRot + (curAngle - startAngle) + 90) / 360), h.2.2⟩⟩

/-- Counterexample to claim C5 as stated: with start rotation 0 and no pointer
movement (current angle = start angle = 90°) the code writes rotation 90, not
the claimed 0 = normalize(0 + 0); and with a −120° sweep the written value is
−30, which is negative, outside the claimed interval [0, 360). -/
theorem rotate_handle_cex :
    rotateDragUpdate 0 90 90 ≠ specNormalize360 (0 + (90 - 90)) ∧
    rotateDragUpdate 0 (-30) 90 < 0 := by
  have hc : (⌈(-30 : ℚ) / 360⌉ : ℤ) = 0 := by
    rw [Int.ceil_eq_iff]
    norm_num
  constructor
  · unfold rotateDragUpdate jsMod ratTrunc specNormalize360
    norm_num
  · unfold rotateDragUpdate jsMod ratTrunc
    rw [show (0 : ℚ) + (-30 - 90) + 90 = -30 by norm_num]
    rw [if_neg (by norm_num)]
    rw [hc]
    norm_num

/-! ## Star shape geometry (editor tools `addShape`, lines 557-571)

The star branch builds 10 polygon points: alternating outer radius `size/2`
and inner radius `size/5`, angle `(Math.PI / spikes) * i - Math.PI / 2` with
`spikes = 5`, point `(centerX + cos(angle)*r, centerY + sin(angle)*r)`.
The trigonometric functions are passed as parameters so the definitions stay
executable; the theorems instantiate them with `Real.cos`/`Real.sin`. -/

/-- Radius of the i-th star vertex: outer `size/2` for even i, inner `size/5`
for odd i (`const r = i % 2 === 0 ? outerRadius : innerRadius`). -/
def starRadius {α : Type} [Field α] (size : α) (i : ℕ) : α :=
  if i % 2 = 0 then size / 2 else size / 5

/-- Angle of the i-th star vertex: `(Math.PI / spikes) * i - Math.PI / 2`
with `spikes = 5`. -/
def starAngle {α : Type} [Field α] (pi : α) (i : ℕ) : α :=
  (pi / 5) * (i : α) - pi / 2

/-- The i-th polygon point of the star. -/
def starPoint {α : Type} [Field α] (cosF sinF : α → α) (pi cx cy size : α)
    (i : ℕ) : α × α :=
  (cx + cosF (starAngle pi i) * starRadius size i,
   cy + sinF (starAngle pi i) * starRadius size i)

/-- The full list of star polygon points (`for i in 0 .. spikes*2 - 1`). -/
def starPoints {α : Type} [Field α] (cosF sinF : α → α) (pi cx cy size : α) :
    List (α × α) :=
  (List.range 10).map (starPoint cosF sinF pi cx cy size)

/-- Canvas-derived placement used by `addShape`: center `(width/2, height/2)`
and `size = Math.min(width, height) / 5`. -/
def shapeSize {α : Type} [LinearOrderedField α] (w h : α) : α := min w h / 5

/-- Claim C6: the star created on a W×H canvas has exactly 10 vertices; the
i-th vertex lies at distance size/2 (even i) or size/5 (odd i) from the canvas
center, where size = min(W,H)/5; the first (outer) vertex points straight up
(at angle −90°, i.e. directly above the center at distance size/2 in SVG
y-down coordinates); and successive vertices are spaced 36° apart. -/
theorem star_geometry (w h : ℝ) (i : ℕ) (hw : 0 ≤ w) (hh : 0 ≤ h)
    (hi : i < 10) :
    (starPoints Real.cos Real.sin Real.pi (w / 2) (h / 2) (shapeSize w h)).length = 10 ∧
    (i % 2 = 0 →
      Real.sqrt
        ((((starPoints Real.cos Real.sin Real.pi (w / 2) (h / 2) (shapeSize w h)).getD i
            (w / 2, h / 2)).1 - w / 2) ^ 2 +
          (((starPoints Real.cos Real.sin Real.pi (w / 2) (h / 2) (shapeSize w h)).getD i
            (w / 2, h / 2)).2 - h / 2) ^ 2)
        = shapeSize w h / 2) ∧
    (i % 2 = 1 →
      Real.sqrt
        ((((starPoints Real.cos Real.sin Real.pi (w / 2) (h / 2) (shapeSize w h)).getD i
            (w / 2, h / 2)).1 - w / 2) ^ 2 +
          (((starPoints Real.cos Real.sin Real.pi (w / 2) (h / 2) (shapeSize w h)).getD i
            (w / 2, h / 2)).2 - h / 2) ^ 2)
        = shapeSize w h / 5) ∧
    (starPoints Real.cos Real.sin Real.pi (w / 2) (h / 2) (shapeSize w h)).getD 0
        (w / 2, h / 2) = (w / 2, h / 2 - shapeSize w h / 2) ∧
    starAngle Real.pi (i + 1) - starAngle Real.pi i = 36 * (Real.pi / 180) := by
  have hsize : 0 ≤ shapeSize w h := by
    unfold shapeSize
    have : 0 ≤ min w h := le_min hw hh
    linarith
  have hgetD : ∀ j, j < 10 → ∀ d : ℝ × ℝ,
      (starPoints Real.cos Real.sin Real.pi (w / 2) (h / 2) (shapeSize w h)).getD j d
        = starPoint Real.cos Real.sin Real.pi (w / 2) (h / 2) (shapeSize w h) j := by
    intro j hj d
    unfold starPoints
    rw [List.getD_eq_getElem?_getD, List.getElem?_map, List.getElem?_range hj]
    rfl
  have hdist : ∀ j, 0 ≤ starRadius (shapeSize w h) j →
      Real.sqrt
        (((starPoint Real.cos Real.sin Real.pi (w / 2) (h / 2) (shapeSize w h) j).1 - w / 2) ^ 2 +
          ((starPoint Real.cos Real.sin Real.pi (w / 2) (h / 2) (shapeSize w h) j).2 - h / 2) ^ 2)
        = starRadius (shapeSize w h) j := by
    intro j hr
    unfold starPoint
    have hpy : Real.sin (starAngle Real.pi j) ^ 2 + Real.cos (starAngle Real.pi j) ^ 2 = 1 :=
      Real.sin_sq_add_cos_sq (starAngle Real.pi j)
    have hsq : (w / 2 + Real.cos (starAngle Real.pi j) * starRadius (shapeSize w h) j - w / 2) ^ 2 +
        (h / 2 + Real.sin (starAngle Real.pi j) * starRadius (shapeSize w h) j - h / 2) ^ 2
        = starRadius (shapeSize w h) j ^ 2 := by nlinarith [hpy]
    simp only
    rw [hsq, Real.sqrt_sq hr]
  refine ⟨by simp [starPoints], ?_, ?_, ?_, ?_⟩
  · intro hev
    rw [hgetD i hi]
    have hr : starRadius (shapeSize w h) i = shapeSize w h / 2 := by
      unfold starRadius; rw [if_pos hev]
    rw [hdist i (by rw [hr]; linarith), hr]
  · intro hodd
    rw [hgetD i hi]
    have hr : starRadius (shapeSize w h) i = shapeSize w h / 5 := by
      unfold starRadius; rw [if_neg (by omega)]
    rw [hdist i (by rw [hr]; linarith), hr]
  · rw [hgetD 0 (by norm_num)]
    unfold starPoint starRadius
    rw [show starAngle Real.pi 0 = -(Real.pi / 2) from by unfold starAngle; push_cast; ring]
    rw [if_pos (by norm_num : 0 % 2 = 0)]
    rw [Real.cos_neg, Real.cos_pi_div_two, Real.sin_neg, Real.sin_pi_div_two]
    simp only [Prod.mk.injEq]
    constructor <;> ring
  · unfold starAngle
    push_cast
    ring


/-- Witness for C6 at a concrete canvas (1×1, first vertex). -/
theorem star_geometry_witness :
    (0 : ℝ) ≤ 1 ∧ (0 : ℕ) < 10 ∧
    (starPoints Real.cos Real.sin Real.pi ((1 : ℝ) / 2) ((1 : ℝ) / 2)
      (shapeSize 1 1)).length = 10 :=
  ⟨zero_le_one, by decide,
    (star_geometry 1 1 0 zero_le_one zero_le_one (by decide)).1⟩

/-! ## Document model

The DOM tree produced by `DOMParser` is modelled as a rose tree of elements.
An element keeps its tag name, its attribute list (`getAttribute`/
`setAttribute` act on the first entry with the given name, as on a DOM where
attribute names are unique), its inline style declarations (the parsed content
of the `style` attribute: `el.style.setProperty`/`removeProperty` and the
regex-level removal of a `transform:`/`filter:`/`mix-blend-mode:` declaration
both become operations on this list), its ordered children and its text
content. -/

mutual
inductive Elem : Type where
  | mk : (tag : String) → (attrs : List (String × String)) →
      (style : List (String × String)) → (children : Forest) → (text : String) → Elem
inductive Forest : Type where
  | nil : Forest
  | cons : Elem → Forest → Forest
end

def Elem.tag : Elem → String
  | .mk t _ _ _ _ => t

def Elem.attrs : Elem → List (String × String)
  | .mk _ a _ _ _ => a

def Elem.style : Elem → List (String × String)
  | .mk _ _ s _ _ => s

def Elem.children : Elem → Forest
  | .mk _ _ _ c _ => c

def Elem.textC : Elem → String
  | .mk _ _ _ _ x => x

def Forest.append : Forest → Forest → Forest
  | .nil, g => g
  | .cons e f, g => .cons e (Forest.append f g)

/-- `getAttribute`: the value of the first attribute with the given name. -/
def attrGet (a : List (String × String)) (k : String) : Option String :=
  match a.find? (fun kv => kv.1 = k) with
  | some kv => some kv.2
  | none => none

/-- `setAttribute`: replace the first attribute with the given name in place,
or append a new one. -/
def attrPut : List (String × String) → String → String → List (String × String)
  | [], k, v => [(k, v)]
  | kv :: rest, k, v => if kv.1 = k then (k, v) :: rest else kv :: attrPut rest k v

/-- `removeAttribute`. -/
def attrDel (a : List (String × String)) (k : String) : List (String × String) :=
  a.filter (fun kv => kv.1 ≠ k)

def setAttr (e : Elem) (k v : String) : Elem :=
  .mk e.tag (attrPut e.attrs k v) e.style e.children e.textC

def removeAttr (e : Elem) (k : String) : Elem :=
  .mk e.tag (attrDel e.attrs k) e.style e.children e.textC

/-- `el.style.setProperty`. -/
def styleSet (e : Elem) (k v : String) : Elem :=
  .mk e.tag e.attrs (attrPut e.style k v) e.children e.textC

/-- `el.style.removeProperty`. -/
def styleDel (e : Elem) (k : String) : Elem :=
  .mk e.tag e.attrs (attrDel e.style k) e.children e.textC

def setText (e : Elem) (x : String) : Elem :=
  .mk e.tag e.attrs e.style e.children x

/-- `el.id`, i.e. the `id` attribute. -/
def elemId (e : Elem) : Option String := attrGet e.attrs "id"

mutual
/-- Does the given id occur on this element or in its subtree? -/
def hasId (i : String) : Elem → Bool
  | .mk _ a _ c _ => decide (attrGet a "id" = some i) || hasIdF i c
def hasIdF (i : String) : Forest → Bool
  | .nil => false
  | .cons e f => hasId i e || hasIdF i f
end

mutual
/-- `doc.getElementById`: the first element in document (pre-)order carrying
the id. -/
def findById (i : String) : Elem → Option Elem
  | .mk t a s c x =>
    if attrGet a "id" = some i then some (.mk t a s c x) else findByIdF i c
def findByIdF (i : String) : Forest → Option Elem
  | .nil => none
  | .cons e f =>
    match findById i e with
    | some r => some r
    | none => findByIdF i f
end

mutual
/-- Apply `g` to the first element in document order carrying the id
(a DOM mutation of `getElementById`'s result). -/
def updById (i : String) (g : Elem → Elem) : Elem → Elem
  | .mk t a s c x =>
    if attrGet a "id" = some i then g (.mk t a s c x)
    else .mk t a s (updByIdF i g c) x
def updByIdF (i : String) (g : Elem → Elem) : Forest → Forest
  | .nil => .nil
  | .cons e f =>
    if hasId i e then .cons (updById i g e) f else .cons e (updByIdF i g f)
end

mutual
/-- `querySelector(tag)` over a subtree rooted at an element (the element
itself included). -/
def firstTag (t : String) : Elem → Option Elem
  | .mk tg a s c x => if tg = t then some (.mk tg a s c x) else firstTagF t c
/-- `querySelector(tag)` over a forest (used for the descendants of a root,
which `querySelector` does not match itself). -/
def firstTagF (t : String) : Forest → Option Elem
  | .nil => none
  | .cons e f =>
    match firstTag t e with
    | some r => some r
    | none => firstTagF t f
end

mutual
def hasTag (t : String) : Elem → Bool
  | .mk tg _ _ c _ => decide (tg = t) || hasTagF t c
def hasTagF (t : String) : Forest → Bool
  | .nil => false
  | .cons e f => hasTag t e || hasTagF t f
end

mutual
/-- Mutate the first element with the given tag, in document order. -/
def updTag (t : String) (g : Elem → Elem) : Elem → Elem
  | .mk tg a s c x =>
    if tg = t then g (.mk tg a s c x) else .mk tg a s (updTagF t g c) x
def updTagF (t : String) (g : Elem → Elem) : Forest → Forest
  | .nil => .nil
  | .cons e f =>
    if hasTag t e then .cons (updTag t g e) f else .cons e (updTagF t g f)
end

mutual
/-- `el.insertAdjacentElement('afterend', g el)`: insert the transformed copy
right after the first element carrying the id, inside its parent's child
list. -/
def dupAfter (i : String) (g : Elem → Elem) : Elem → Elem
  | .mk t a s c x => .mk t a s (dupAfterF i g c) x
def dupAfterF (i : String) (g : Elem → Elem) : Forest → Forest
  | .nil => .nil
  | .cons e f =>
    if elemId e = some i then .cons e (.cons (g e) f)
    else if hasId i e then .cons (dupAfter i g e) f
    else .cons e (dupAfterF i g f)
end

/-- `next = el.nextElementSibling; if (next) next.after(el)`: swap the head
with its next sibling when one exists. -/
def swapHead (e : Elem) : Forest → Forest
  | .nil => .cons e .nil
  | .cons n r => .cons n (.cons e r)

mutual
/-- `moveLayer(id, 'up')`: swap the first element carrying the id with its
next sibling. -/
def moveUpE (i : String) : Elem → Elem
  | .mk t a s c x => .mk t a s (moveUpF i c) x
def moveUpF (i : String) : Forest → Forest
  | .nil => .nil
  | .cons e f =>
    if elemId e = some i then swapHead e f
    else if hasId i e then .cons (moveUpE i e) f
    else .cons e (moveUpF i f)
end

mutual
/-- `moveLayer(id, 'down')`: `prev = el.previousElementSibling; if (prev)
prev.before(el)` — swap with the previous sibling. -/
def moveDownE (i : String) : Elem → Elem
  | .mk t a s c x => .mk t a s (moveDownF i c) x
def moveDownF (i : String) : Forest → Forest
  | .nil => .nil
  | .cons e f =>
    if elemId e = some i then .cons e f
    else if hasId i e then .cons (moveDownE i e) f
    else
      match f with
      | .nil => .cons e .nil
      | .cons n r =>
        if elemId n = some i then .cons n (.cons e r)
        else .cons e (moveDownF i (.cons n r))
end

def appendChild (e child : Elem) : Elem :=
  .mk e.tag e.attrs e.style (Forest.append e.children (.cons child .nil)) e.textC

def prependChild (e child : Elem) : Elem :=
  .mk e.tag e.attrs e.style (.cons child e.children) e.textC

def childAtF : Forest → ℕ → Option Elem
  | .nil, _ => none
  | .cons e _, 0 => some e
  | .cons _ f, n + 1 => childAtF f n


/-! ### Attribute/style list lemmas -/

theorem attrGet_nil (k : String) : attrGet [] k = none := rfl

theorem attrGet_cons (kv : String × String) (rest : List (String × String))
    (k : String) :
    attrGet (kv :: rest) k = if kv.1 = k then some kv.2 else attrGet rest k := by
  by_cases h : kv.1 = k
  · simp [attrGet, List.find?, h]
  · simp only [attrGet, List.find?]
    rw [show (decide (kv.1 = k)) = false from by simp [h], if_neg h]

theorem attrDel_cons (kv : String × String) (rest : List (String × String))
    (k : String) :
    attrDel (kv :: rest) k = if kv.1 = k then attrDel rest k
      else kv :: attrDel rest k := by
  by_cases h : kv.1 = k
  · simp only [attrDel, List.filter]
    rw [show (decide (kv.1 ≠ k)) = false from by simp [h], if_pos h]
  · simp only [attrDel, List.filter]
    rw [show (decide (kv.1 ≠ k)) = true from by simp [h], if_neg h]

theorem attrGet_put_same (a : List (String × String)) (k v : String) :
    attrGet (attrPut a k v) k = some v := by
  induction a with
  | nil => simp [attrGet, attrPut, List.find?]
  | cons kv rest ih =>
    by_cases hk : kv.1 = k
    · rw [attrPut, if_pos hk, attrGet_cons, if_pos rfl]
    · rw [attrPut, if_neg hk, attrGet_cons, if_neg hk]
      exact ih

theorem attrGet_put_other (a : List (String × String)) (k v k' : String)
    (hne : k' ≠ k) : attrGet (attrPut a k v) k' = attrGet a k' := by
  have hkk : k ≠ k' := fun h => hne h.symm
  induction a with
  | nil =>
    show attrGet [(k, v)] k' = none
    rw [attrGet_cons, if_neg hkk, attrGet_nil]
  | cons kv rest ih =>
    by_cases hk : kv.1 = k
    · have hk' : kv.1 ≠ k' := by rw [hk]; exact hkk
      rw [attrPut, if_pos hk, attrGet_cons, if_neg hkk, attrGet_cons, if_neg hk']
    · rw [attrPut, if_neg hk, attrGet_cons, attrGet_cons]
      by_cases hk2 : kv.1 = k'
      · rw [if_pos hk2, if_pos hk2]
      · rw [if_neg hk2, if_neg hk2]
        exact ih

theorem attrPut_of_get (a : List (String × String)) (k v : String)
    (h : attrGet a k = some v) : attrPut a k v = a := by
  induction a with
  | nil => exact absurd h (by rw [attrGet_nil]; exact Option.noConfusion)
  | cons kv rest ih =>
    rw [attrGet_cons] at h
    by_cases hk : kv.1 = k
    · rw [if_pos hk] at h
      obtain ⟨k1, v1⟩ := kv
      simp only at hk h
      subst hk
      rw [attrPut, if_pos rfl]
      rw [show v = v1 from (Option.some.injEq _ _ ▸ h).symm]
    · rw [if_neg hk] at h
      rw [attrPut, if_neg hk, ih h]

theorem attrGet_del_same (a : List (String × String)) (k : String) :
    attrGet (attrDel a k) k = none := by
  induction a with
  | nil => rfl
  | cons kv rest ih =>
    rw [attrDel_cons]
    by_cases hk : kv.1 = k
    · rw [if_pos hk]; exact ih
    · rw [if_neg hk, attrGet_cons, if_neg hk]; exact ih

theorem attrGet_del_other (a : List (String × String)) (k k' : String)
    (hne : k' ≠ k) : attrGet (attrDel a k) k' = attrGet a k' := by
  induction a with
  | nil => rfl
  | cons kv rest ih =>
    rw [attrDel_cons]
    by_cases hk : kv.1 = k
    · have hk' : kv.1 ≠ k' := by rw [hk]; exact fun h => hne h.symm
      rw [if_pos hk, attrGet_cons, if_neg hk']
      exact ih
    · rw [if_neg hk, attrGet_cons, attrGet_cons]
      by_cases hk2 : kv.1 = k'
      · rw [if_pos hk2, if_pos hk2]
      · rw [if_neg hk2, if_neg hk2]
        exact ih

/-! ### Tree traversal lemmas -/

theorem elemId_setAttr_other (e : Elem) (k v : String) (hk : k ≠ "id") :
    elemId (setAttr e k v) = elemId e := by
  cases e with
  | mk t a s c x =>
    simp only [elemId, setAttr, Elem.attrs]
    exact attrGet_put_other a k v "id" (fun h => hk h.symm)

theorem elemId_styleDel (e : Elem) (k : String) :
    elemId (styleDel e k) = elemId e := by
  cases e with
  | mk t a s c x => rfl

mutual
theorem updById_of_not_hasId (i : String) (g : Elem → Elem) :
    ∀ e : Elem, hasId i e = false → updById i g e = e
  | .mk t a s c x, h => by
    have h2 : (decide (attrGet a "id" = some i) || hasIdF i c) = false := h
    rw [Bool.or_eq_false_iff] at h2
    have hid : ¬(attrGet a "id" = some i) := by
      simpa using h2.1
    rw [updById, if_neg hid, updByIdF_of_not_hasIdF i g c h2.2]
theorem updByIdF_of_not_hasIdF (i : String) (g : Elem → Elem) :
    ∀ f : Forest, hasIdF i f = false → updByIdF i g f = f
  | .nil, _ => rfl
  | .cons e f, h => by
    have h2 : (hasId i e || hasIdF i f) = false := h
    rw [Bool.or_eq_false_iff] at h2
    rw [updByIdF, if_neg (by simp [h2.1]), updByIdF_of_not_hasIdF i g f h2.2]
end

mutual
theorem findById_eq_none_of_not_hasId (i : String) :
    ∀ e : Elem, hasId i e = false → findById i e = none
  | .mk t a s c x, h => by
    have h2 : (decide (attrGet a "id" = some i) || hasIdF i c) = false := h
    rw [Bool.or_eq_false_iff] at h2
    have hid : ¬(attrGet a "id" = some i) := by simpa using h2.1
    rw [findById, if_neg hid]
    exact findByIdF_eq_none_of_not_hasIdF i c h2.2
theorem findByIdF_eq_none_of_not_hasIdF (i : String) :
    ∀ f : Forest, hasIdF i f = false → findByIdF i f = none
  | .nil, _ => rfl
  | .cons e f, h => by
    have h2 : (hasId i e || hasIdF i f) = false := h
    rw [Bool.or_eq_false_iff] at h2
    rw [findByIdF, findById_eq_none_of_not_hasId i e h2.1]
    exact findByIdF_eq_none_of_not_hasIdF i f h2.2
end

mutual
theorem findById_isSome_eq_hasId (i : String) :
    ∀ e : Elem, (findById i e).isSome = hasId i e
  | .mk t a s c x => by
    by_cases hid : attrGet a "id" = some i
    · rw [findById, if_pos hid]
      show true = hasId i (.mk t a s c x)
      rw [hasId]
      simp [hid]
    · rw [findById, if_neg hid]
      rw [show hasId i (.mk t a s c x) = (decide (attrGet a "id" = some i) || hasIdF i c)
        from rfl]
      rw [show (decide (attrGet a "id" = some i)) = false from by simp [hid], Bool.false_or]
      exact findByIdF_isSome_eq_hasIdF i c
theorem findByIdF_isSome_eq_hasIdF (i : String) :
    ∀ f : Forest, (findByIdF i f).isSome = hasIdF i f
  | .nil => rfl
  | .cons e f => by
    rw [findByIdF, show hasIdF i (.cons e f) = (hasId i e || hasIdF i f) from rfl]
    cases hfe : findById i e with
    | none =>
      have he : hasId i e = false := by
        rw [← findById_isSome_eq_hasId i e, hfe]; rfl
      rw [he, Bool.false_or]
      exact findByIdF_isSome_eq_hasIdF i f
    | some r =>
      have he : hasId i e = true := by
        rw [← findById_isSome_eq_hasId i e, hfe]; rfl
      rw [he, Bool.true_or]
      rfl
end

mutual
theorem findById_updById (i : String) (g : Elem → Elem)
    (hg : ∀ e, elemId (g e) = elemId e) :
    ∀ e : Elem, findById i (updById i g e) = (findById i e).map g
  | .mk t a s c x => by
    by_cases hid : attrGet a "id" = some i
    · rw [updById, if_pos hid]
      have hfind : findById i (g (.mk t a s c x)) = some (g (.mk t a s c x)) := by
        have hgid : elemId (g (.mk t a s c x)) = some i := by
          rw [hg]; exact hid
        cases hge : g (.mk t a s c x) with
        | mk t2 a2 s2 c2 x2 =>
          rw [hge] at hgid
          simp only [elemId, Elem.attrs] at hgid
          rw [findById, if_pos hgid]
      rw [hfind, findById, if_pos hid, Option.map_some']
    · rw [updById, if_neg hid, findById, if_neg hid, findById, if_neg hid]
      exact findByIdF_updByIdF i g hg c
theorem findByIdF_updByIdF (i : String) (g : Elem → Elem)
    (hg : ∀ e, elemId (g e) = elemId e) :
    ∀ f : Forest, findByIdF i (updByIdF i g f) = (findByIdF i f).map g
  | .nil => rfl
  | .cons e f => by
    cases he : hasId i e with
    | false =>
      rw [updByIdF, if_neg (by simp [he]), findByIdF, findByIdF]
      rw [findById_eq_none_of_not_hasId i e he]
      exact findByIdF_updByIdF i g hg f
    | true =>
      rw [updByIdF, if_pos he, findByIdF, findByIdF]
      rw [findById_updById i g hg e]
      cases hfe : findById i e with
      | none =>
        exfalso
        have h2 : (findById i e).isSome = true := by
          rw [findById_isSome_eq_hasId i e, he]
        rw [hfe] at h2
        exact Bool.false_ne_true h2
      | some r => rfl
end

/-! ## Numbers and strings

JavaScript numbers flowing through the string codec are modelled as exact
rationals in an unnormalized numerator/denominator pair (`JNum`; the
denominator is the power of ten produced by parsing, so integer inputs keep
denominator 1).  `parseFloat` becomes a prefix decimal parser (optional sign,
integer digits, optional fraction; exponents and special forms are outside the
verified scenarios); `NaN` becomes `none`.  The decimal rendering of a number
(`${n}` interpolation) is `JNum.render`, exact on integers — the only values
the verified scenarios print. -/

structure JNum where
  num : ℤ
  den : ℕ
deriving DecidableEq

def JNum.ofNat (n : ℕ) : JNum := ⟨n, 1⟩

def JNum.neg (a : JNum) : JNum := ⟨-a.num, a.den⟩

def JNum.add (a b : JNum) : JNum :=
  ⟨a.num * b.den + b.num * a.den, a.den * b.den⟩

/-- Is the value positive (denominators from parsing are positive)? -/
def JNum.posB (a : JNum) : Bool := decide (0 < a.num)

/-- Is the value exactly one? -/
def JNum.oneB (a : JNum) : Bool := decide (a.num = (a.den : ℤ))

/-- Decimal rendering; integers render exactly as JavaScript prints them. -/
def JNum.render (a : JNum) : String :=
  if a.den = 1 then toString a.num
  else toString a.num ++ "/" ++ toString a.den

def digitVal (c : Char) : Option ℕ :=
  if c.isDigit then some (c.toNat - 48) else none

def takeDigits : List Char → List ℕ × List Char
  | [] => ([], [])
  | c :: cs =>
    match digitVal c with
    | some d =>
      let p := takeDigits cs
      (d :: p.1, p.2)
    | none => ([], c :: cs)

def digitsVal (l : List ℕ) : ℕ := l.foldl (fun a d => 10 * a + d) 0

def fracVal (l : List ℕ) : JNum := ⟨digitsVal l, 10 ^ l.length⟩

/-- `parseFloat`, returning `none` for `NaN`. -/
def parseNum (s : String) : Option JNum :=
  let l := s.data.dropWhile (fun c => c.isWhitespace)
  let sgn : Bool × List Char :=
    match l with
    | '-' :: r => (true, r)
    | '+' :: r => (false, r)
    | _ => (false, l)
  let ip := takeDigits sgn.2
  let fp : List ℕ × Bool :=
    match ip.2 with
    | '.' :: r2 => ((takeDigits r2).1, !ip.1.isEmpty || !(takeDigits r2).1.isEmpty)
    | _ => ([], !ip.1.isEmpty)
  if fp.2 then
    let v : JNum := (JNum.ofNat (digitsVal ip.1)).add (fracVal fp.1)
    some (if sgn.1 then v.neg else v)
  else none

def isSubList (pat : List Char) : List Char → Bool
  | [] => pat.isEmpty
  | c :: cs => pat.isPrefixOf (c :: cs) || isSubList pat cs

/-- Does `pat` occur as a substring of `s`? -/
def hasSubstr (s pat : String) : Bool := isSubList pat.data s.data

def lowerChar (c : Char) : Char :=
  if 'A' ≤ c ∧ c ≤ 'Z' then Char.ofNat (c.toNat + 32) else c

/-- `toLowerCase()`. -/
def strLower (s : String) : String := String.mk (s.data.map lowerChar)

/-! ## Transform serialization

Two code paths write a node's `transform`:

* the style panel (editor tools, lines 346-358): removes every `transform:`
  declaration from the style and appends
  `transform: rotate(Rdeg) scale(SX, SY); transform-box: fill-box;
  transform-origin: center;`, where R is the panel's rotate string and
  SX/SY are the parsed scale magnitude with the flip signs folded in;
* the drag overlay (SvgPreview.tsx 123-137): same removal, then appends
  `transform: rotate(Rdeg) scale(SX, SY) skewX(KXdeg) skewY(KYdeg); ...`
  from the full tracked TransformState.

The emitted declaration is represented as a list of transform functions plus
a rendering to the literal string, so order claims can be stated on the
list. -/

inductive TFn where
  | rot : String → TFn
  | scl : String → String → TFn
  | skx : String → TFn
  | sky : String → TFn

def TFn.fname : TFn → String
  | .rot _ => "rotate"
  | .scl _ _ => "scale"
  | .skx _ => "skewX"
  | .sky _ => "skewY"

def TFn.render : TFn → String
  | .rot v => "rotate(" ++ v ++ "deg)"
  | .scl x y => "scale(" ++ x ++ ", " ++ y ++ ")"
  | .skx v => "skewX(" ++ v ++ "deg)"
  | .sky v => "skewY(" ++ v ++ "deg)"

def renderFns (l : List TFn) : String := String.intercalate " " (l.map TFn.render)

/-- The style-panel state fields feeding transform and filter rebuilds
(`newProps` in `updateStyle`).  All numeric fields are the panel's string
state values, parsed where the source parses them. -/
structure StyleProps where
  rotate : String
  scale : String
  flipX : Bool
  flipY : Bool
  blur : String
  grayscale : String
  sepia : String
  invert : String
  saturate : String
  hueRotate : String

/-- `const s = parseFloat(newProps.scale); const scaleX = flipX ? -s : s`. -/
def panelScaleStr (flip : Bool) (scale : String) : String :=
  match parseNum scale with
  | some q => JNum.render (if flip then q.neg else q)
  | none => "NaN"

/-- The transform functions the panel emits: rotate then scale — no skew
functions, whatever the node's prior transform contained. -/
def panelTFns (p : StyleProps) : List TFn :=
  [.rot p.rotate, .scl (panelScaleStr p.flipX p.scale) (panelScaleStr p.flipY p.scale)]

def panelTransformValue (p : StyleProps) : String := renderFns (panelTFns p)

/-- The panel transform branch (editor tools 348-358): strip all `transform:`
declarations, then append the freshly built transform plus
`transform-box`/`transform-origin`. -/
def applyPanelTransform (p : StyleProps) (e : Elem) : Elem :=
  .mk e.tag e.attrs
    (attrDel e.style "transform" ++
      [("transform", panelTransformValue p), ("transform-box", "fill-box"),
       ("transform-origin", "center")])
    e.children e.textC

/-- The transform channels tracked by the drag overlay. -/
structure TransformState where
  rotate : JNum
  scaleX : JNum
  scaleY : JNum
  skewX : JNum
  skewY : JNum

/-- The transform functions the drag overlay emits (SvgPreview.tsx 124-129),
always all four in the fixed order. -/
def dragTFns (t : TransformState) : List TFn :=
  [.rot t.rotate.render, .scl t.scaleX.render t.scaleY.render,
   .skx t.skewX.render, .sky t.skewY.render]

def dragTransformValue (t : TransformState) : String := renderFns (dragTFns t)

/-- The drag-overlay style write (SvgPreview.tsx 131-137): strip `transform:`
declarations, append the new transform plus box/origin. -/
def applyDragTransform (t : TransformState) (e : Elem) : Elem :=
  .mk e.tag e.attrs
    (attrDel e.style "transform" ++
      [("transform", dragTransformValue t), ("transform-box", "fill-box"),
       ("transform-origin", "center")])
    e.children e.textC

def styleGet (st : List (String × String)) (k : String) : Option String := attrGet st k

/-! The drag overlay's reading side (SvgPreview.tsx 50-61): regexes pull
`rotate(…deg)`, `scale(x[, y])`, `skewX(…deg)`, `skewY(…deg)` out of the
style attribute; modelled as scanners over the transform declaration's
value. -/

def numChar (c : Char) : Bool := c.isDigit || c = '.' || c = '-'

def charsAfter (pat : List Char) : List Char → Option (List Char)
  | [] => none
  | c :: cs =>
    if pat.isPrefixOf (c :: cs) then some ((c :: cs).drop pat.length)
    else charsAfter pat cs

def scanNumAfter (pat s : String) : Option JNum :=
  (charsAfter pat.data s.data).map
    (fun r => (parseNum (String.mk (r.takeWhile numChar))).getD (JNum.ofNat 0))

def scanScale (s : String) : Option (JNum × JNum) :=
  (charsAfter "scale(".data s.data).map (fun r =>
    let xs := r.takeWhile numChar
    let rest := r.drop xs.length
    let x := (parseNum (String.mk xs)).getD (JNum.ofNat 0)
    match rest with
    | ',' :: r2 =>
      let r3 := r2.dropWhile (fun c => c.isWhitespace)
      let ys := r3.takeWhile numChar
      (x, (parseNum (String.mk ys)).getD x)
    | _ => (x, x))

/-- The TransformState the drag overlay reads back from a node's style. -/
def readTransform (st : List (String × String)) : TransformState :=
  let sv := (styleGet st "transform").getD ""
  let sc := (scanScale sv).getD (JNum.ofNat 1, JNum.ofNat 1)
  { rotate := (scanNumAfter "rotate(" sv).getD (JNum.ofNat 0)
    scaleX := sc.1
    scaleY := sc.2
    skewX := (scanNumAfter "skewX(" sv).getD (JNum.ofNat 0)
    skewY := (scanNumAfter "skewY(" sv).getD (JNum.ofNat 0) }


def styleEntries (st : List (String × String)) (k : String) : List (String × String) :=
  st.filter (fun kv => kv.1 = k)

theorem styleEntries_attrDel (st : List (String × String)) (k : String) :
    styleEntries (attrDel st k) k = [] := by
  induction st with
  | nil => rfl
  | cons kv rest ih =>
    rw [attrDel_cons]
    by_cases h : kv.1 = k
    · rw [if_pos h]; exact ih
    · rw [if_neg h]
      show styleEntries (kv :: attrDel rest k) k = []
      simp only [styleEntries, List.filter]
      rw [show (decide (kv.1 = k)) = false from by simp [h]]
      exact ih

theorem styleEntries_append (a b : List (String × String)) (k : String) :
    styleEntries (a ++ b) k = styleEntries a k ++ styleEntries b k := by
  simp [styleEntries, List.filter_append]

/-- Claim C1 (amended): both transform-writing paths replace the prior
`transform:` declaration wholesale — the updated style carries exactly one
transform declaration, the freshly serialized one.  The drag overlay rebuilds
it from all five tracked channels and always emits the four functions in the
fixed order rotate, scale, skewX, skewY.  The style panel, however, rebuilds
only from its own four channels (rotate string, scale magnitude, flipX, flipY)
and emits just rotate then scale — skew channels are not preserved (see the
counterexample), though the functions that are emitted respect the fixed
relative order. -/
theorem transform_serialization_order :
    (∀ p : StyleProps, (panelTFns p).map TFn.fname = ["rotate", "scale"]) ∧
    (∀ t : TransformState,
      (dragTFns t).map TFn.fname = ["rotate", "scale", "skewX", "skewY"]) ∧
    (∀ (p : StyleProps) (e : Elem),
      styleEntries (applyPanelTransform p e).style "transform"
        = [("transform", panelTransformValue p)]) ∧
    (∀ (t : TransformState) (e : Elem),
      styleEntries (applyDragTransform t e).style "transform"
        = [("transform", dragTransformValue t)]) := by
  refine ⟨fun p => rfl, fun t => rfl, fun p e => ?_, fun t e => ?_⟩
  · rw [show (applyPanelTransform p e).style
        = attrDel e.style "transform" ++
          [("transform", panelTransformValue p), ("transform-box", "fill-box"),
           ("transform-origin", "center")] from rfl]
    rw [styleEntries_append, styleEntries_attrDel]
    simp [styleEntries]
  · rw [show (applyDragTransform t e).style
        = attrDel e.style "transform" ++
          [("transform", dragTransformValue t), ("transform-box", "fill-box"),
           ("transform-origin", "center")] from rfl]
    rw [styleEntries_append, styleEntries_attrDel]
    simp [styleEntries]

/-- Counterexample to claim C1 as stated: a node whose current transform state
has skewX = 10 (as the drag overlay itself would read it back) is edited
through the style panel (rotate set to 45); the resulting serialized transform
contains no skewX function at all — the panel did not recompute from the full
TransformState, and the emitted declaration has only two of the four
functions. -/
theorem panel_transform_drops_skew_cex :
    (readTransform
        [("transform", "rotate(0deg) scale(1, 1) skewX(10deg) skewY(0deg)")]).skewX
      = ⟨10, 1⟩ ∧
    hasSubstr
      ((styleGet
          (applyPanelTransform
            ⟨"45", "1", false, false, "0", "0", "0", "0", "1", "0"⟩
            (.mk "rect" [("id", "r1")]
              [("transform", "rotate(0deg) scale(1, 1) skewX(10deg) skewY(0deg)")]
              .nil "")).style
          "transform").getD "")
      "skewX" = false := by
  constructor
  · decide
  · decide


/-! ## The property mutation engine (`updateStyle`, editor tools 310-391)

`updateStyle(key, value)` merges the changed key into the panel state
(`newProps`) and then, if an element with the selected id exists, dispatches on
the key: text content, geometry attributes, corner radius (mirrored to `ry` on
rects), paint/typography keys written to both attribute and inline style (with
the `none` sentinel removing instead of writing), transform rebuild, filter
chain rebuild, and blend mode.  The merged panel state and the shadow state
enter the model as arguments. -/

/-- The drop-shadow state (`shadowProps`). -/
structure Shadow where
  enabled : Bool
  x : JNum
  y : JNum
  blur : JNum
  color : String
  opacity : JNum

/-- `parseFloat(v) > 0` with JS `NaN > 0 = false`. -/
def pfPos (s : String) : Bool :=
  match parseNum s with
  | some q => q.posB
  | none => false

/-- `parseFloat(v) !== 1` with JS `NaN !== 1 = true`. -/
def pfNeOne (s : String) : Bool :=
  match parseNum s with
  | some q => !q.oneB
  | none => true

def hexVal (c : Char) : ℕ :=
  if c.isDigit then c.toNat - 48
  else if 'a' ≤ c ∧ c ≤ 'f' then c.toNat - 87
  else if 'A' ≤ c ∧ c ≤ 'F' then c.toNat - 55
  else 0

/-- `parseInt(color.slice(i, i+2), 16)` for the shadow rgba conversion. -/
def hexByte (s : String) (i : ℕ) : ℕ :=
  16 * hexVal (s.data.getD i '0') + hexVal (s.data.getD (i + 1) '0')

def rgbaOf (c : String) (op : JNum) : String :=
  "rgba(" ++ toString (hexByte c 1) ++ "," ++ toString (hexByte c 3) ++ ","
    ++ toString (hexByte c 5) ++ "," ++ op.render ++ ")"

def dropShadowStr (sh : Shadow) : String :=
  let color := if sh.color.startsWith "#" then rgbaOf sh.color sh.opacity else sh.color
  "drop-shadow(" ++ sh.x.render ++ "px " ++ sh.y.render ++ "px "
    ++ sh.blur.render ++ "px " ++ color ++ ")"

/-- The rebuilt filter chain (editor tools 360-378): each filter only when
non-default, the active drop shadow appended last. -/
def filterList (p : StyleProps) (sh : Shadow) : List String :=
  (if pfPos p.blur then ["blur(" ++ p.blur ++ "px)"] else []) ++
  (if pfPos p.grayscale then ["grayscale(" ++ p.grayscale ++ ")"] else []) ++
  (if pfPos p.sepia then ["sepia(" ++ p.sepia ++ ")"] else []) ++
  (if pfPos p.invert then ["invert(" ++ p.invert ++ ")"] else []) ++
  (if pfNeOne p.saturate then ["saturate(" ++ p.saturate ++ ")"] else []) ++
  (if pfPos p.hueRotate then ["hue-rotate(" ++ p.hueRotate ++ "deg)"] else []) ++
  (if sh.enabled then [dropShadowStr sh] else [])

def applyFilters (p : StyleProps) (sh : Shadow) (e : Elem) : Elem :=
  let base := attrDel e.style "filter"
  .mk e.tag e.attrs
    (if filterList p sh ≠ [] then
      base ++ [("filter", String.intercalate " " (filterList p sh))]
    else base)
    e.children e.textC

def applyBlend (v : String) (e : Elem) : Elem :=
  let base := attrDel e.style "mix-blend-mode"
  .mk e.tag e.attrs
    (if v ≠ "normal" then base ++ [("mix-blend-mode", v)] else base)
    e.children e.textC

def paintKeys : List String :=
  ["fill", "fill-opacity", "stroke", "stroke-width", "stroke-opacity",
   "stroke-linecap", "stroke-linejoin", "stroke-dasharray", "opacity",
   "font-family", "font-size", "font-weight"]

/-- The per-element dispatch of `updateStyle` (editor tools 318-387). -/
def applyStyleKey (key val : String) (p : StyleProps) (sh : Shadow) (e : Elem) : Elem :=
  let tag := strLower e.tag
  if key = "textContent" then setText e val
  else if key = "x" ∨ key = "y" then
    if tag = "circle" ∨ tag = "ellipse" then
      setAttr e (if key = "x" then "cx" else "cy") val
    else setAttr e key val
  else if key = "rx" then
    let e1 := setAttr e "rx" val
    if tag = "rect" then setAttr e1 "ry" val else e1
  else if paintKeys.contains key then
    let e1 := if val = "none" ∧ key = "stroke-dasharray" then removeAttr e key
              else setAttr e key val
    if val = "none" ∧ (key = "stroke-dasharray" ∨ key = "stroke") then styleDel e1 key
    else styleSet e1 key val
  else if key = "rotate" ∨ key = "scale" ∨ key = "flipX" ∨ key = "flipY" then
    applyPanelTransform p e
  else if key = "blur" ∨ key = "grayscale" ∨ key = "sepia" ∨ key = "invert"
      ∨ key = "saturate" ∨ key = "hueRotate" then
    applyFilters p sh e
  else if key = "blendMode" then applyBlend val e
  else e

/-- `updateStyle` at document level: mutate the selected element if present
(`const el = doc.getElementById(selectedElementId); if (el) { ... }`). -/
def updateStyleDoc (i key val : String) (p : StyleProps) (sh : Shadow)
    (root : Elem) : Elem :=
  updById i (applyStyleKey key val p sh) root

/-- Claim C4: applying any property change — whatever the key and value, so
style, geometry, transform, filter and text edits alike — to a node id that
does not occur in the document leaves the document tree unchanged (the
re-serialized output is the unchanged document); the total function never
throws. -/
theorem updateStyle_missing_id_noop (i key val : String) (p : StyleProps)
    (sh : Shadow) (root : Elem) (habs : hasId i root = false) :
    updateStyleDoc i key val p sh root = root :=
  updById_of_not_hasId i (applyStyleKey key val p sh) root habs

/-- Witness for C4: deleting-then-mutating scenario on a concrete one-rect
document whose only id is "r1"; the update for the stale id "gone" is the
identity. -/
theorem updateStyle_missing_id_noop_witness :
    hasId "gone"
        (.mk "svg" [] [] (.cons (.mk "rect" [("id", "r1")] [] .nil "") .nil) "")
      = false ∧
    updateStyleDoc "gone" "fill" "#ff0000"
        ⟨"0", "1", false, false, "0", "0", "0", "0", "1", "0"⟩
        ⟨false, ⟨2, 1⟩, ⟨2, 1⟩, ⟨2, 1⟩, "#000000", ⟨1, 2⟩⟩
        (.mk "svg" [] [] (.cons (.mk "rect" [("id", "r1")] [] .nil "") .nil) "")
      = .mk "svg" [] [] (.cons (.mk "rect" [("id", "r1")] [] .nil "") .nil) "" :=
  ⟨by decide,
    updateStyle_missing_id_noop "gone" "fill" "#ff0000"
      ⟨"0", "1", false, false, "0", "0", "0", "0", "1", "0"⟩
      ⟨false, ⟨2, 1⟩, ⟨2, 1⟩, ⟨2, 1⟩, "#000000", ⟨1, 2⟩⟩
      (.mk "svg" [] [] (.cons (.mk "rect" [("id", "r1")] [] .nil "") .nil) "")
      (by decide)⟩


/-! ## Gradient manager (`applyGradient`, editor tools 276-308)

Ensures a `defs` container exists (created and prepended as first child when
absent), clears the target's inline `fill` style, creates a fresh gradient
definition with two stops (`0%` start, `100%` end), appends it to the `defs`
container, and points the target's `fill` attribute at `url(#newId)`.  The
fresh id is `grad-` followed by `Date.now()`, passed in as `now`.  (The source
appends the gradient element to `defs` before attaching its stops and sets the
fill attribute in between; the final document state is the same.) -/

inductive GradKind where
  | linear : GradKind
  | radial : GradKind

def gradTag : GradKind → String
  | .linear => "linearGradient"
  | .radial => "radialGradient"

def mkStop (off col : String) : Elem :=
  .mk "stop" [("offset", off), ("stop-color", col)] [] .nil ""

def mkGradElem (k : GradKind) (gid s0 e0 : String) : Elem :=
  .mk (gradTag k) [("id", gid)] []
    (.cons (mkStop "0%" s0) (.cons (mkStop "100%" e0) .nil)) ""

/-- `el.style.removeProperty('fill'); el.setAttribute('fill', url)`. -/
def gradFill (url : String) (e : Elem) : Elem := setAttr (styleDel e "fill") "fill" url

def applyGradient (root : Elem) (nodeId : String) (k : GradKind)
    (s0 e0 : String) (now : ℕ) : Elem :=
  let root1 := if (firstTagF "defs" root.children).isSome then root
               else prependChild root (.mk "defs" [] [] .nil "")
  if hasId nodeId root1 then
    let gid := "grad-" ++ toString now
    let root2 := updById nodeId (gradFill ("url(#" ++ gid ++ ")")) root1
    .mk root2.tag root2.attrs root2.style
      (updTagF "defs" (fun d => appendChild d (mkGradElem k gid s0 e0)) root2.children)
      root2.textC
  else root1

/-! Read-back side: the style panel (editor tools 200-213) reads the fill from
the inline style, falling back to the attribute, strips `url(#`…`)` and
resolves the gradient definition, whose stops are the `stop` descendants'
offset/stop-color pairs. -/

def strStartsWith (s pat : String) : Bool := pat.data.isPrefixOf s.data

/-- `fillVal.replace(/^url\(#|['"]|\)$/g, '')` on a well-formed
`url(#id)` reference: strip the prefix and the closing parenthesis. -/
def stripUrlRef (s : String) : Option String :=
  if "url(#".data.isPrefixOf s.data ∧ s.data.getLast? = some ')' then
    some (String.mk ((s.data.drop 5).dropLast))
  else none

mutual
def stopsE : Elem → List (String × String)
  | .mk tg a _ c _ =>
    (if tg = "stop" then
      [((attrGet a "offset").getD "", (attrGet a "stop-color").getD "")]
    else []) ++ stopsF c
def stopsF : Forest → List (String × String)
  | .nil => []
  | .cons e f => stopsE e ++ stopsF f
end

/-- `querySelectorAll('stop')` on a gradient definition, as offset/color
pairs. -/
def gradStops (g : Elem) : List (String × String) := stopsF g.children

/-- The panel's fill read-back: inline style first, then attribute, then the
`#000000` default; a `url(…)` value resolves to the referenced definition and
its stops. -/
def readFillRef (doc el : Elem) : Option (String × String × List (String × String)) :=
  let fillVal := (styleGet el.style "fill").getD ((attrGet el.attrs "fill").getD "#000000")
  if strStartsWith fillVal "url(" then
    match stripUrlRef fillVal with
    | some gid =>
      match findById gid doc with
      | some g => some (gid, g.tag, gradStops g)
      | none => none
    | none => none
  else none

theorem stripUrlRef_concat (g : String) :
    stripUrlRef ("url(#" ++ g ++ ")") = some g := by
  have hdata : ("url(#" ++ g ++ ")").data = "url(#".data ++ (g.data ++ [')']) := by
    rw [String.data_append, String.data_append]
    rfl
  unfold stripUrlRef
  rw [hdata]
  rw [if_pos ?side]
  case side =>
    constructor
    · rw [ List.isPrefixOf_iff_prefix]
      exact List.prefix_append _ _
    · rw [show "url(#".data ++ (g.data ++ [')']) = ("url(#".data ++ g.data) ++ [')']
        from by rw [List.append_assoc]]
      exact List.getLast?_concat _
  rw [show (5 : ℕ) = "url(#".data.length from rfl]
  rw [List.drop_left, List.dropLast_concat]

theorem strStartsWith_url (g : String) :
    strStartsWith ("url(#" ++ g ++ ")") "url(" = true := by
  unfold strStartsWith
  rw [ List.isPrefixOf_iff_prefix]
  rw [String.data_append, String.data_append]
  show ['u', 'r', 'l', '('] <+: ['u', 'r', 'l', '(', '#'] ++ g.data ++ [')']
  rw [show ['u', 'r', 'l', '(', '#'] = ['u', 'r', 'l', '('] ++ ['#'] from rfl]
  rw [List.append_assoc, List.append_assoc]
  exact List.prefix_append _ _

theorem gradFill_elemId (url : String) (e : Elem) :
    elemId (gradFill url e) = elemId e := by
  unfold gradFill
  rw [elemId_setAttr_other _ _ _ (by decide), elemId_styleDel]

theorem stopAttrs_offset (off col : String) :
    attrGet [("offset", off), ("stop-color", col)] "offset" = some off := by
  rw [attrGet_cons, if_pos rfl]

theorem stopAttrs_color (off col : String) :
    attrGet [("offset", off), ("stop-color", col)] "stop-color" = some col := by
  rw [attrGet_cons,
    if_neg (show ¬("offset", off).1 = "stop-color" from by simp),
    attrGet_cons, if_pos rfl]

theorem stopAttrs_id (off col : String) :
    attrGet [("offset", off), ("stop-color", col)] "id" = none := by
  rw [attrGet_cons, if_neg (show ¬("offset", off).1 = "id" from by simp),
    attrGet_cons, if_neg (show ¬("stop-color", col).1 = "id" from by simp),
    attrGet_nil]

theorem hasId_mkStop (i off col : String) : hasId i (mkStop off col) = false := by
  show (decide (attrGet [("offset", off), ("stop-color", col)] "id" = some i)
    || hasIdF i .nil) = false
  rw [stopAttrs_id]
  rfl

theorem hasId_mkGradElem (i gid s0 e0 : String) (k : GradKind) (hne : i ≠ gid) :
    hasId i (mkGradElem k gid s0 e0) = false := by
  show (decide (attrGet [("id", gid)] "id" = some i)
    || hasIdF i (.cons (mkStop "0%" s0) (.cons (mkStop "100%" e0) .nil))) = false
  rw [attrGet_cons, if_pos rfl]
  rw [show hasIdF i (.cons (mkStop "0%" s0) (.cons (mkStop "100%" e0) .nil))
      = (hasId i (mkStop "0%" s0) || (hasId i (mkStop "100%" e0) || hasIdF i .nil))
    from rfl]
  rw [hasId_mkStop, hasId_mkStop]
  have hns : ¬(some gid = some i) := fun hcontra => hne (Option.some.inj hcontra).symm
  simp [hns]
  rfl

theorem gradStops_mkGradElem (k : GradKind) (gid s0 e0 : String) :
    gradStops (mkGradElem k gid s0 e0) = [("0%", s0), ("100%", e0)] := by
  show stopsF (.cons (mkStop "0%" s0) (.cons (mkStop "100%" e0) .nil))
    = [("0%", s0), ("100%", e0)]
  rw [show stopsF (.cons (mkStop "0%" s0) (.cons (mkStop "100%" e0) .nil))
      = stopsE (mkStop "0%" s0) ++ (stopsE (mkStop "100%" e0) ++ stopsF .nil) from rfl]
  unfold mkStop stopsE
  rw [if_pos rfl, if_pos rfl]
  rw [stopAttrs_offset, stopAttrs_color, stopAttrs_offset, stopAttrs_color]
  rfl


/-- Claim C7: applying a linear gradient with given start and end colors to an
existing node (in a document without a defs container, so one is created as
the first child; the fresh gradient id is unused in the document) and then
reading the node's fill back through the panel's read path yields a
`url(#id)` reference — the fill attribute points at the new id, the inline
fill style that would shadow it is gone — resolving to a linearGradient
definition living inside the defs container whose two stops are exactly the
start color at 0% and the end color at 100%. -/
theorem gradient_round_trip (a st : List (String × String)) (cs : Forest) (tx : String)
    (nodeId s0 e0 gid : String) (now : ℕ)
    (hg : gid = "grad-" ++ toString now)
    (hdefs : firstTagF "defs" cs = none)
    (hrootid : ¬(attrGet a "id" = some nodeId))
    (hnode : hasIdF nodeId cs = true)
    (hfresh : hasId gid (.mk "svg" a st cs tx) = false) :
    ∃ el : Elem,
      findById nodeId (applyGradient (.mk "svg" a st cs tx) nodeId .linear s0 e0 now)
        = some el ∧
      attrGet el.attrs "fill" = some ("url(#" ++ gid ++ ")") ∧
      styleGet el.style "fill" = none ∧
      readFillRef (applyGradient (.mk "svg" a st cs tx) nodeId .linear s0 e0 now) el
        = some (gid, "linearGradient", [("0%", s0), ("100%", e0)]) ∧
      ((firstTagF "defs"
          (applyGradient (.mk "svg" a st cs tx) nodeId .linear s0 e0 now).children).map
        (fun d => hasIdF gid d.children)) = some true := by
  subst hg
  have hfresh2 : (decide (attrGet a "id" = some ("grad-" ++ toString now))
      || hasIdF ("grad-" ++ toString now) cs) = false := hfresh
  rw [Bool.or_eq_false_iff] at hfresh2
  obtain ⟨hfa, hfc⟩ := hfresh2
  have hfa' : ¬(attrGet a "id" = some ("grad-" ++ toString now)) := by simpa using hfa
  have hne : nodeId ≠ "grad-" ++ toString now := by
    intro h
    rw [h] at hnode
    rw [hnode] at hfc
    exact Bool.false_ne_true hfc.symm
  have hguard : hasId nodeId
      (prependChild (.mk "svg" a st cs tx) (.mk "defs" [] [] .nil "")) = true := by
    show (decide (attrGet a "id" = some nodeId)
      || hasIdF nodeId (.cons (.mk "defs" [] [] .nil "") cs)) = true
    rw [show hasIdF nodeId (.cons (.mk "defs" [] [] .nil "") cs)
        = (hasId nodeId (.mk "defs" [] [] .nil "") || hasIdF nodeId cs) from rfl]
    rw [show hasId nodeId (.mk "defs" [] [] .nil "") = false from rfl]
    rw [hnode]
    simp
  have hres : applyGradient (.mk "svg" a st cs tx) nodeId .linear s0 e0 now
      = .mk "svg" a st
          (.cons (.mk "defs" [] []
              (.cons (mkGradElem .linear ("grad-" ++ toString now) s0 e0) .nil) "")
            (updByIdF nodeId
              (gradFill ("url(#" ++ ("grad-" ++ toString now) ++ ")")) cs)) tx := by
    unfold applyGradient
    rw [show Elem.children (Elem.mk "svg" a st cs tx) = cs from rfl, hdefs]
    rw [if_neg (show ¬((none : Option Elem).isSome = true) from by simp)]
    rw [if_pos hguard]
    have hdefsSkip : updByIdF nodeId
        (gradFill ("url(#" ++ ("grad-" ++ toString now) ++ ")"))
        (.cons (.mk "defs" [] [] .nil "") cs)
        = .cons (.mk "defs" [] [] .nil "")
            (updByIdF nodeId (gradFill ("url(#" ++ ("grad-" ++ toString now) ++ ")")) cs) := by
      rw [updByIdF]
      rw [if_neg (by simp [show hasId nodeId (Elem.mk "defs" [] [] Forest.nil "") = false from rfl])]
    have hroot2 : updById nodeId (gradFill ("url(#" ++ ("grad-" ++ toString now) ++ ")"))
        (prependChild (.mk "svg" a st cs tx) (.mk "defs" [] [] .nil ""))
        = .mk "svg" a st (.cons (.mk "defs" [] [] .nil "")
            (updByIdF nodeId (gradFill ("url(#" ++ ("grad-" ++ toString now) ++ ")")) cs)) tx := by
      show updById nodeId (gradFill ("url(#" ++ ("grad-" ++ toString now) ++ ")"))
          (.mk "svg" a st (.cons (.mk "defs" [] [] .nil "") cs) tx) = _
      rw [updById]
      rw [if_neg hrootid]
      rw [hdefsSkip]
    simp only [hroot2, Elem.tag, Elem.attrs, Elem.style, Elem.children, Elem.textC]
    rw [show updTagF "defs"
        (fun d => appendChild d (mkGradElem GradKind.linear ("grad-" ++ toString now) s0 e0))
        (Forest.cons (Elem.mk "defs" [] [] Forest.nil "")
          (updByIdF nodeId (gradFill ("url(#" ++ ("grad-" ++ toString now) ++ ")")) cs))
        = Forest.cons
            (Elem.mk "defs" [] []
              (Forest.cons (mkGradElem GradKind.linear ("grad-" ++ toString now) s0 e0)
                Forest.nil) "")
            (updByIdF nodeId (gradFill ("url(#" ++ ("grad-" ++ toString now) ++ ")")) cs)
      from by
        rw [updTagF]
        rw [if_pos (show hasTag "defs" (Elem.mk "defs" [] [] Forest.nil "") = true from rfl)]
        rfl]
  have hsome : (findByIdF nodeId cs).isSome = true := by
    rw [findByIdF_isSome_eq_hasIdF, hnode]
  obtain ⟨n, hn⟩ := Option.isSome_iff_exists.mp hsome
  have hfpres : ∀ e, elemId (gradFill ("url(#" ++ ("grad-" ++ toString now) ++ ")") e)
      = elemId e := gradFill_elemId _
  have hfindUpd : findByIdF nodeId
      (updByIdF nodeId (gradFill ("url(#" ++ ("grad-" ++ toString now) ++ ")")) cs)
      = some (gradFill ("url(#" ++ ("grad-" ++ toString now) ++ ")") n) := by
    rw [findByIdF_updByIdF _ _ hfpres, hn]
    rfl
  have hdefsNoNode : hasId nodeId
      (Elem.mk "defs" [] []
        (Forest.cons (mkGradElem .linear ("grad-" ++ toString now) s0 e0) Forest.nil) "")
      = false := by
    show (decide (attrGet [] "id" = some nodeId)
      || (hasId nodeId (mkGradElem .linear ("grad-" ++ toString now) s0 e0)
          || hasIdF nodeId Forest.nil)) = false
    rw [hasId_mkGradElem nodeId ("grad-" ++ toString now) s0 e0 .linear hne]
    rfl
  have hmain : findById nodeId
      (applyGradient (.mk "svg" a st cs tx) nodeId .linear s0 e0 now)
      = some (gradFill ("url(#" ++ ("grad-" ++ toString now) ++ ")") n) := by
    rw [hres, findById, if_neg hrootid, findByIdF]
    rw [findById_eq_none_of_not_hasId nodeId _ hdefsNoNode]
    exact hfindUpd
  have hfillAttr : attrGet (gradFill ("url(#" ++ ("grad-" ++ toString now) ++ ")") n).attrs
      "fill" = some ("url(#" ++ ("grad-" ++ toString now) ++ ")") := by
    show attrGet (attrPut (styleDel n "fill").attrs "fill"
      ("url(#" ++ ("grad-" ++ toString now) ++ ")")) "fill" = _
    exact attrGet_put_same _ _ _
  have hfillStyle : styleGet
      (gradFill ("url(#" ++ ("grad-" ++ toString now) ++ ")") n).style "fill" = none := by
    show attrGet (attrDel n.style "fill") "fill" = none
    exact attrGet_del_same _ _
  have hfindG : findById ("grad-" ++ toString now)
      (applyGradient (.mk "svg" a st cs tx) nodeId .linear s0 e0 now)
      = some (mkGradElem .linear ("grad-" ++ toString now) s0 e0) := by
    rw [hres, findById, if_neg hfa', findByIdF]
    rw [show findById ("grad-" ++ toString now)
        (Elem.mk "defs" [] []
          (Forest.cons (mkGradElem .linear ("grad-" ++ toString now) s0 e0) Forest.nil) "")
        = some (mkGradElem .linear ("grad-" ++ toString now) s0 e0) from by
      rw [findById,
        if_neg (show ¬(attrGet [] "id" = some ("grad-" ++ toString now)) from by
          rw [attrGet_nil]; exact Option.noConfusion),
        findByIdF]
      rw [show findById ("grad-" ++ toString now)
          (mkGradElem .linear ("grad-" ++ toString now) s0 e0)
          = some (mkGradElem .linear ("grad-" ++ toString now) s0 e0) from by
        show findById ("grad-" ++ toString now)
          (.mk (gradTag .linear) [("id", "grad-" ++ toString now)] []
            (.cons (mkStop "0%" s0) (.cons (mkStop "100%" e0) .nil)) "") = _
        rw [findById, if_pos (by rw [attrGet_cons, if_pos rfl])]
        rfl]]
  have hread : readFillRef (applyGradient (.mk "svg" a st cs tx) nodeId .linear s0 e0 now)
      (gradFill ("url(#" ++ ("grad-" ++ toString now) ++ ")") n)
      = some ("grad-" ++ toString now, "linearGradient", [("0%", s0), ("100%", e0)]) := by
    unfold readFillRef
    rw [hfillStyle, hfillAttr]
    simp only [Option.getD_some, Option.getD_none]
    simp only [strStartsWith_url, stripUrlRef_concat, hfindG, gradStops_mkGradElem]
    rfl
  have hfirst : (firstTagF "defs"
      (applyGradient (.mk "svg" a st cs tx) nodeId .linear s0 e0 now).children).map
        (fun d => hasIdF ("grad-" ++ toString now) d.children) = some true := by
    rw [hres]
    rw [show (Elem.mk "svg" a st
        (Forest.cons (Elem.mk "defs" [] []
            (Forest.cons (mkGradElem .linear ("grad-" ++ toString now) s0 e0) Forest.nil) "")
          (updByIdF nodeId (gradFill ("url(#" ++ ("grad-" ++ toString now) ++ ")")) cs))
        tx).children
      = Forest.cons (Elem.mk "defs" [] []
            (Forest.cons (mkGradElem .linear ("grad-" ++ toString now) s0 e0) Forest.nil) "")
          (updByIdF nodeId (gradFill ("url(#" ++ ("grad-" ++ toString now) ++ ")")) cs)
      from rfl]
    rw [firstTagF]
    rw [show firstTag "defs" (Elem.mk "defs" [] []
        (Forest.cons (mkGradElem .linear ("grad-" ++ toString now) s0 e0) Forest.nil) "")
      = some (Elem.mk "defs" [] []
          (Forest.cons (mkGradElem .linear ("grad-" ++ toString now) s0 e0) Forest.nil) "")
      from by rw [firstTag, if_pos rfl]]
    rw [Option.map_some']
    rw [show hasIdF ("grad-" ++ toString now)
        (Elem.mk "defs" [] []
          (Forest.cons (mkGradElem .linear ("grad-" ++ toString now) s0 e0) Forest.nil)
          "").children
      = (hasId ("grad-" ++ toString now) (mkGradElem .linear ("grad-" ++ toString now) s0 e0)
          || false) from rfl]
    rw [show hasId ("grad-" ++ toString now) (mkGradElem .linear ("grad-" ++ toString now) s0 e0)
        = (decide (attrGet [("id", "grad-" ++ toString now)] "id"
            = some ("grad-" ++ toString now))
          || hasIdF ("grad-" ++ toString now)
              (.cons (mkStop "0%" s0) (.cons (mkStop "100%" e0) .nil))) from rfl]
    rw [attrGet_cons, if_pos rfl]
    simp
  exact ⟨gradFill ("url(#" ++ ("grad-" ++ toString now) ++ ")") n,
    hmain, hfillAttr, hfillStyle, hread, hfirst⟩

/-- Witness for C7 on a concrete one-rect document, with start `#ff0000` and
end `#0000ff`. -/
theorem gradient_round_trip_witness :
    hasIdF "r1" (.cons (.mk "rect" [("id", "r1")] [("fill", "red")] .nil "") .nil)
      = true ∧
    ∃ el : Elem,
      findById "r1" (applyGradient
          (.mk "svg" [] []
            (.cons (.mk "rect" [("id", "r1")] [("fill", "red")] .nil "") .nil) "")
          "r1" .linear "#ff0000" "#0000ff" 3) = some el ∧
      attrGet el.attrs "fill" = some ("url(#" ++ "grad-3" ++ ")") ∧
      styleGet el.style "fill" = none ∧
      readFillRef (applyGradient
          (.mk "svg" [] []
            (.cons (.mk "rect" [("id", "r1")] [("fill", "red")] .nil "") .nil) "")
          "r1" .linear "#ff0000" "#0000ff" 3) el
        = some ("grad-3", "linearGradient", [("0%", "#ff0000"), ("100%", "#0000ff")]) ∧
      ((firstTagF "defs" (applyGradient
          (.mk "svg" [] []
            (.cons (.mk "rect" [("id", "r1")] [("fill", "red")] .nil "") .nil) "")
          "r1" .linear "#ff0000" "#0000ff" 3).children).map
        (fun d => hasIdF "grad-3" d.children)) = some true := by
  refine ⟨by decide, ?_⟩
  exact gradient_round_trip [] []
    (.cons (.mk "rect" [("id", "r1")] [("fill", "red")] .nil "") .nil) ""
    "r1" "#ff0000" "#0000ff" "grad-3" 3
    (by decide) rfl (by decide) (by decide) rfl

/-! ## Duplication

Two code paths duplicate a node:

* Ctrl+D (SvgPreview.tsx 576-599): deep-clone, fresh id `dup-` + `Date.now()`,
  then a +10 offset on `x`/`y` (rect/image/text/use) or `cx`/`cy`
  (circle/ellipse) or an appended `translate(10, 10)` (anything else), inserted
  immediately after the original;
* the layers panel (`duplicateLayer`, editor tools 448-459): deep-clone, fresh
  id `copy-` + `Date.now()`, inserted immediately after the original — with
  NO positional offset. -/

def dupOffsetTags : List String := ["rect", "image", "text", "use"]

/-- `(parseFloat(attr || '0') + 10).toString()`. -/
def addTen (s : String) : String :=
  match parseNum s with
  | some q => (q.add (JNum.ofNat 10)).render
  | none => "NaN"

/-- The Ctrl+D clone: fresh `dup-` id plus the +10 offset by tag kind. -/
def ctrlClone (now : ℕ) (e : Elem) : Elem :=
  if dupOffsetTags.contains (strLower e.tag) then
    setAttr (setAttr (setAttr e "id" ("dup-" ++ toString now)) "x"
        (addTen ((attrGet e.attrs "x").getD "0")))
      "y" (addTen ((attrGet e.attrs "y").getD "0"))
  else if strLower e.tag = "circle" ∨ strLower e.tag = "ellipse" then
    setAttr (setAttr (setAttr e "id" ("dup-" ++ toString now)) "cx"
        (addTen ((attrGet e.attrs "cx").getD "0")))
      "cy" (addTen ((attrGet e.attrs "cy").getD "0"))
  else
    setAttr (setAttr e "id" ("dup-" ++ toString now)) "transform"
      (((attrGet e.attrs "transform").getD "") ++ " translate(10, 10)")

def ctrlDup (i : String) (now : ℕ) (root : Elem) : Elem :=
  .mk root.tag root.attrs root.style (dupAfterF i (ctrlClone now) root.children)
    root.textC

/-- The layers-panel clone: fresh `copy-` id, nothing else. -/
def panelClone (now : ℕ) (e : Elem) : Elem :=
  setAttr e "id" ("copy-" ++ toString now)

def duplicateLayerDoc (i : String) (now : ℕ) (root : Elem) : Elem :=
  .mk root.tag root.attrs root.style (dupAfterF i (panelClone now) root.children)
    root.textC

theorem hasId_of_elemId (i : String) (e : Elem) (h : elemId e = some i) :
    hasId i e = true := by
  cases e with
  | mk t a s c x =>
    show (decide (attrGet a "id" = some i) || hasIdF i c) = true
    have h2 : attrGet a "id" = some i := h
    simp [h2]

theorem dupAfterF_append (i : String) (g : Elem → Elem) (e : Elem) (post : Forest)
    (he : elemId e = some i) :
    ∀ pre : Forest, hasIdF i pre = false →
      dupAfterF i g (Forest.append pre (.cons e post))
        = Forest.append pre (.cons e (.cons (g e) post))
  | .nil, _ => by
    show dupAfterF i g (.cons e post) = .cons e (.cons (g e) post)
    rw [dupAfterF, if_pos he]
  | .cons p pre, h => by
    have h2 : (hasId i p || hasIdF i pre) = false := h
    rw [Bool.or_eq_false_iff] at h2
    have hpid : ¬(elemId p = some i) := by
      intro hcontra
      rw [hasId_of_elemId i p hcontra] at h2
      exact Bool.false_ne_true h2.1.symm
    show dupAfterF i g (.cons p (Forest.append pre (.cons e post)))
      = .cons p (Forest.append pre (.cons e (.cons (g e) post)))
    rw [dupAfterF, if_neg hpid, if_neg (by simp [h2.1])]
    rw [dupAfterF_append i g e post he pre h2.2]

/-- Claim C8 (amended): the keyboard (Ctrl+D) duplicate of a rectangle at
(10,10) produces a deep clone at (20,20) — the fixed +10 offset on both axes —
with the fresh id `dup-` + timestamp, inserted immediately after the original
in document order, the original and all its siblings unchanged in place.  The
layers-panel duplicate (`duplicateLayer`) also deep-clones, re-ids (`copy-` +
timestamp) and inserts immediately after the original, but applies NO offset:
its clone of a rectangle at (10,10) stays at (10,10) — see the
counterexample. -/
theorem duplicate_ctrl_d_amended (a st : List (String × String)) (tx : String)
    (pre post : Forest) (rAttrs rStyle : List (String × String)) (rc : Forest)
    (rTx : String) (i : String) (now : ℕ)
    (hid : attrGet rAttrs "id" = some i)
    (hx : attrGet rAttrs "x" = some "10")
    (hy : attrGet rAttrs "y" = some "10")
    (hpre : hasIdF i pre = false)
    (hne : i ≠ "dup-" ++ toString now) :
    ctrlDup i now (.mk "svg" a st
        (Forest.append pre (.cons (.mk "rect" rAttrs rStyle rc rTx) post)) tx)
      = .mk "svg" a st
          (Forest.append pre (.cons (.mk "rect" rAttrs rStyle rc rTx)
            (.cons (ctrlClone now (.mk "rect" rAttrs rStyle rc rTx)) post))) tx ∧
    elemId (ctrlClone now (.mk "rect" rAttrs rStyle rc rTx))
      = some ("dup-" ++ toString now) ∧
    attrGet (ctrlClone now (.mk "rect" rAttrs rStyle rc rTx)).attrs "x" = some "20" ∧
    attrGet (ctrlClone now (.mk "rect" rAttrs rStyle rc rTx)).attrs "y" = some "20" ∧
    "dup-" ++ toString now ≠ i := by
  have hcontains : dupOffsetTags.contains
      (strLower (Elem.tag (.mk "rect" rAttrs rStyle rc rTx))) = true := by
    rw [show Elem.tag (.mk "rect" rAttrs rStyle rc rTx) = "rect" from rfl]
    decide
  have hadd : addTen "10" = "20" := by decide
  have hclone : ctrlClone now (.mk "rect" rAttrs rStyle rc rTx)
      = setAttr (setAttr (setAttr (.mk "rect" rAttrs rStyle rc rTx) "id"
            ("dup-" ++ toString now)) "x"
          (addTen ((attrGet rAttrs "x").getD "0")))
        "y" (addTen ((attrGet rAttrs "y").getD "0")) := by
    unfold ctrlClone
    rw [if_pos hcontains]
    rfl
  have hcx : attrGet (ctrlClone now (.mk "rect" rAttrs rStyle rc rTx)).attrs "x"
      = some "20" := by
    rw [hclone]
    show attrGet (attrPut (attrPut (attrPut rAttrs "id" ("dup-" ++ toString now))
        "x" (addTen ((attrGet rAttrs "x").getD "0")))
      "y" (addTen ((attrGet rAttrs "y").getD "0"))) "x" = some "20"
    rw [attrGet_put_other _ _ _ _ (by decide)]
    rw [attrGet_put_same]
    rw [hx]
    rw [show (some "10").getD "0" = "10" from rfl, hadd]
  have hcy : attrGet (ctrlClone now (.mk "rect" rAttrs rStyle rc rTx)).attrs "y"
      = some "20" := by
    rw [hclone]
    show attrGet (attrPut (attrPut (attrPut rAttrs "id" ("dup-" ++ toString now))
        "x" (addTen ((attrGet rAttrs "x").getD "0")))
      "y" (addTen ((attrGet rAttrs "y").getD "0"))) "y" = some "20"
    rw [attrGet_put_same]
    rw [hy]
    rw [show (some "10").getD "0" = "10" from rfl, hadd]
  have hcid : elemId (ctrlClone now (.mk "rect" rAttrs rStyle rc rTx))
      = some ("dup-" ++ toString now) := by
    rw [hclone]
    show attrGet (attrPut (attrPut (attrPut rAttrs "id" ("dup-" ++ toString now))
        "x" (addTen ((attrGet rAttrs "x").getD "0")))
      "y" (addTen ((attrGet rAttrs "y").getD "0"))) "id"
      = some ("dup-" ++ toString now)
    rw [attrGet_put_other _ _ _ _ (by decide)]
    rw [attrGet_put_other _ _ _ _ (by decide)]
    rw [attrGet_put_same]
  refine ⟨?_, hcid, hcx, hcy, fun h => hne h.symm⟩
  unfold ctrlDup
  rw [show Elem.children (.mk "svg" a st
      (Forest.append pre (.cons (.mk "rect" rAttrs rStyle rc rTx) post)) tx)
    = Forest.append pre (.cons (.mk "rect" rAttrs rStyle rc rTx) post) from rfl]
  rw [dupAfterF_append i (ctrlClone now) (.mk "rect" rAttrs rStyle rc rTx) post
    hid pre hpre]
  rfl

/-- Witness for C8's amended theorem on a concrete document. -/
theorem duplicate_ctrl_d_amended_witness :
    attrGet [("id", "r1"), ("x", "10"), ("y", "10")] "x" = some "10" ∧
    attrGet (ctrlClone 7
        (.mk "rect" [("id", "r1"), ("x", "10"), ("y", "10")] [] .nil "")).attrs "x"
      = some "20" :=
  ⟨by decide,
    (duplicate_ctrl_d_amended [] [] "" .nil .nil
      [("id", "r1"), ("x", "10"), ("y", "10")] [] .nil "" "r1" 7
      (by decide) (by decide) (by decide) rfl (by decide)).2.2.1⟩

/-- Counterexample to claim C8 as stated: the layers-panel `duplicateLayer`
clones a rectangle at (10,10) but leaves the clone at (10,10) — no +10 offset
is applied (only the keyboard Ctrl+D path offsets).  The clone does get a
fresh id and is inserted right after the original. -/
theorem duplicateLayer_no_offset_cex :
    (childAtF (duplicateLayerDoc "r1" 7
        (.mk "svg" [] []
          (.cons (.mk "rect" [("id", "r1"), ("x", "10"), ("y", "10")] [] .nil "") .nil)
          "")).children 1).map
      (fun c => ((attrGet c.attrs "x").getD "", (attrGet c.attrs "y").getD "",
        (attrGet c.attrs "id").getD ""))
      = some ("10", "10", "copy-7") ∧
    ("10" : String) ≠ "20" := by
  constructor
  · decide
  · decide

/-! ## The `modifySvg` commit path (editor tools 260-274)

Every editor-panel operation parses the current document text, runs its
mutation callback, and — whenever the parse produced an `svg` root — calls
`onUpdate(svg.outerHTML)` exactly once, unconditionally, even when the
callback changed nothing.  `onUpdate` is `handleUpdate`, which appends one
history snapshot.  `modifySvgOut` returns the list of `onUpdate` invocations
(the parse and the serializer are parameters standing for `DOMParser` and
`outerHTML`). -/

def modifySvgOut {σ : Type} (parse : σ → Option Elem) (ser : Elem → σ)
    (content : σ) (f : Elem → Elem) : List σ :=
  match parse content with
  | none => []
  | some svg => [ser (f svg)]

/-- `moveLayer` (editor tools 461-473) at document level. -/
def moveLayerDoc (i : String) (up : Bool) (root : Elem) : Elem :=
  .mk root.tag root.attrs root.style
    (if up then moveUpF i root.children else moveDownF i root.children) root.textC

theorem moveUpF_last (i : String) (e : Elem) (he : elemId e = some i) :
    ∀ pre : Forest, hasIdF i pre = false →
      moveUpF i (Forest.append pre (.cons e .nil)) = Forest.append pre (.cons e .nil)
  | .nil, _ => by
    show moveUpF i (.cons e .nil) = .cons e .nil
    rw [moveUpF, if_pos he, swapHead]
  | .cons p pre, h => by
    have h2 : (hasId i p || hasIdF i pre) = false := h
    rw [Bool.or_eq_false_iff] at h2
    have hpid : ¬(elemId p = some i) := by
      intro hc
      rw [hasId_of_elemId i p hc] at h2
      exact Bool.false_ne_true h2.1.symm
    show moveUpF i (.cons p (Forest.append pre (.cons e .nil)))
      = .cons p (Forest.append pre (.cons e .nil))
    rw [moveUpF, if_neg hpid, if_neg (by simp [h2.1])]
    rw [moveUpF_last i e he pre h2.2]

/-- Claim C10: an editor-panel operation routed through `modifySvg`, on a
document text that parses to an `svg` root, invokes the document-update
callback exactly once with the re-serialized document, and the resulting
`handleUpdate` appends exactly one history snapshot — even when the operation
changed nothing: here a property update for an absent node id and a move-up of
the topmost sibling, both of which leave the document tree unchanged. -/
theorem modifySvg_single_update (parse : String → Option Elem) (ser : Elem → String)
    (c : String) (a st : List (String × String)) (pre : Forest) (e : Elem)
    (tx : String) (i k v j : String) (p : StyleProps) (sh : Shadow) (hist : Hist)
    (hparse : parse c = some (.mk "svg" a st (Forest.append pre (.cons e .nil)) tx))
    (habs : hasId i (.mk "svg" a st (Forest.append pre (.cons e .nil)) tx) = false)
    (hj : elemId e = some j)
    (hpre : hasIdF j pre = false)
    (hg : Good hist) :
    modifySvgOut parse ser c (updateStyleDoc i k v p sh)
      = [ser (.mk "svg" a st (Forest.append pre (.cons e .nil)) tx)] ∧
    modifySvgOut parse ser c (moveLayerDoc j true)
      = [ser (.mk "svg" a st (Forest.append pre (.cons e .nil)) tx)] ∧
    (commit hist
        (ser (.mk "svg" a st (Forest.append pre (.cons e .nil)) tx))).log.length
      = hist.idx + 2 ∧
    (commit hist (ser (.mk "svg" a st (Forest.append pre (.cons e .nil)) tx))).cur
      = ser (.mk "svg" a st (Forest.append pre (.cons e .nil)) tx) := by
  have hstyle : updateStyleDoc i k v p sh
      (.mk "svg" a st (Forest.append pre (.cons e .nil)) tx)
      = .mk "svg" a st (Forest.append pre (.cons e .nil)) tx :=
    updById_of_not_hasId i _ _ habs
  have hmove : moveLayerDoc j true
      (.mk "svg" a st (Forest.append pre (.cons e .nil)) tx)
      = .mk "svg" a st (Forest.append pre (.cons e .nil)) tx := by
    unfold moveLayerDoc
    rw [if_pos rfl]
    rw [show Elem.children (.mk "svg" a st (Forest.append pre (.cons e .nil)) tx)
      = Forest.append pre (.cons e .nil) from rfl]
    rw [moveUpF_last j e hj pre hpre]
    rfl
  refine ⟨?_, ?_, commit_log_length hist _ hg, rfl⟩
  · unfold modifySvgOut
    rw [hparse]
    show [ser (updateStyleDoc i k v p sh
      (.mk "svg" a st (Forest.append pre (.cons e .nil)) tx))] = _
    rw [hstyle]
  · unfold modifySvgOut
    rw [hparse]
    show [ser (moveLayerDoc j true
      (.mk "svg" a st (Forest.append pre (.cons e .nil)) tx))] = _
    rw [hmove]

/-- Witness for C10 on a concrete one-rect document: the move-up of the
topmost (only) layer still produces exactly one update with the unchanged
document, and the commit grows the fresh history by one snapshot. -/
theorem modifySvg_single_update_witness :
    hasId "zz"
        (.mk "svg" [] [] (.cons (.mk "rect" [("id", "a")] [] .nil "") .nil) "")
      = false ∧
    modifySvgOut
        (fun _ => some
          (.mk "svg" [] [] (.cons (.mk "rect" [("id", "a")] [] .nil "") .nil) ""))
        (fun _ => "doc-out") "doc-in" (moveLayerDoc "a" true)
      = ["doc-out"] ∧
    (commit (initHist "X") "doc-out").log.length = (initHist "X").idx + 2 :=
  ⟨by decide,
    (modifySvg_single_update
      (fun _ => some
        (.mk "svg" [] [] (.cons (.mk "rect" [("id", "a")] [] .nil "") .nil) ""))
      (fun _ => "doc-out") "doc-in" [] [] .nil (.mk "rect" [("id", "a")] [] .nil "")
      "" "zz" "fill" "red" "a"
      ⟨"0", "1", false, false, "0", "0", "0", "0", "1", "0"⟩
      ⟨false, ⟨2, 1⟩, ⟨2, 1⟩, ⟨2, 1⟩, "#000000", ⟨1, 2⟩⟩
      (initHist "X") rfl (by decide) (by decide) rfl (by decide)).2.1,
    (modifySvg_single_update
      (fun _ => some
        (.mk "svg" [] [] (.cons (.mk "rect" [("id", "a")] [] .nil "") .nil) ""))
      (fun _ => "doc-out") "doc-in" [] [] .nil (.mk "rect" [("id", "a")] [] .nil "")
      "" "zz" "fill" "red" "a"
      ⟨"0", "1", false, false, "0", "0", "0", "0", "1", "0"⟩
      ⟨false, ⟨2, 1⟩, ⟨2, 1⟩, ⟨2, 1⟩, "#000000", ⟨1, 2⟩⟩
      (initHist "X") rfl (by decide) (by decide) rfl (by decide)).2.2.1⟩

/-! ## Scene normalizer (`normalizeSvg`, SvgPreview.tsx 252-313)

Parses the document text (parse failure, detected through `parsererror` or a
missing `svg` root, returns the input unchanged), then ensures an `xmlns`, a
`viewBox` (synthesized from non-percentage width/height, else `0 0 512 512`),
explicit width/height mirrored from the viewBox when missing or
percentage-based, and a unique id on every paintable element
(`tag_index_salt`, where salt stands for the `Date.now()` suffix).  Parsing
and serialization are parameters standing for `DOMParser`/`outerHTML`; the
normalization itself acts on the parsed `svg` element.  The `width`/`height`
values feeding the conditions are recomputed at each step from the attribute
list; the steps in between never touch those attributes, so the recomputed
values coincide with the source's snapshot variables. -/

def svgNS : String := "http://www.w3.org/2000/svg"

def isVbSep (c : Char) : Bool :=
  c = ' ' ∨ c = '\t' ∨ c = '\n' ∨ c = '\r' ∨ c = ','

mutual
/-- JS `split(/[\s,]+/)`: tokens between separator runs, with an empty token
at the start/end when the text starts/ends with a separator. -/
def splitGo (cur : List Char) : List Char → List (List Char)
  | [] => [cur.reverse]
  | c :: cs =>
    if isVbSep c then cur.reverse :: splitSkip cs
    else splitGo (c :: cur) cs
def splitSkip : List Char → List (List Char)
  | [] => [[]]
  | c :: cs => if isVbSep c then splitSkip cs else splitGo [c] cs
end

def splitSeps (s : String) : List String := (splitGo [] s.data).map String.mk

/-- `parseFloat(x).toString()` (NaN included). -/
def numStr (s : String) : String :=
  match parseNum s with
  | some q => q.render
  | none => "NaN"

/-- The tags `querySelectorAll` targets for id assignment
(SvgPreview.tsx 301). -/
def selTags : List String :=
  ["g", "path", "rect", "circle", "ellipse", "text", "image", "line",
   "polygon", "polyline"]

/-- `if (!el.id) el.id = tag_index_salt` on the attribute list. -/
def assignIdAttr (t salt : String) (n : ℕ) (a : List (String × String)) :
    List (String × String) :=
  if (attrGet a "id").getD "" = "" then
    attrPut a "id" (strLower t ++ "_" ++ toString n ++ "_" ++ salt)
  else a

mutual
/-- Assign `tag_index_salt` ids to selected elements with a missing or empty
id, threading the document-order index over the selected elements. -/
def assignIdsE (salt : String) : Elem → Nat → Elem × Nat
  | .mk t a s c x, n =>
    if selTags.contains t then
      (.mk t (assignIdAttr t salt n a) s (assignIdsF salt c (n + 1)).1 x,
       (assignIdsF salt c (n + 1)).2)
    else
      (.mk t a s (assignIdsF salt c n).1 x, (assignIdsF salt c n).2)
def assignIdsF (salt : String) : Forest → Nat → Forest × Nat
  | .nil, n => (.nil, n)
  | .cons e f, n =>
    (.cons (assignIdsE salt e n).1 (assignIdsF salt f (assignIdsE salt e n).2).1,
     (assignIdsF salt f (assignIdsE salt e n).2).2)
end

mutual
/-- Every selected element in the subtree has a nonempty id. -/
def idsOkE : Elem → Bool
  | .mk t a _ c _ =>
    (!(selTags.contains t) || !(decide ((attrGet a "id").getD "" = ""))) && idsOkF c
def idsOkF : Forest → Bool
  | .nil => true
  | .cons e f => idsOkE e && idsOkF f
end

/-- Step 1: ensure a namespace (SvgPreview.tsx 267-269). -/
def nzXmlns (a : List (String × String)) : List (String × String) :=
  if (attrGet a "xmlns").getD "" = "" then attrPut a "xmlns" svgNS else a

/-- The `width` let-variable: the attribute with `100%` nulled out. -/
def nzW (a : List (String × String)) : String :=
  if (attrGet a "width").getD "" = "100%" then "" else (attrGet a "width").getD ""

/-- The `height` let-variable. -/
def nzH (a : List (String × String)) : String :=
  if (attrGet a "height").getD "" = "100%" then "" else (attrGet a "height").getD ""

/-- Step 2: ensure a viewBox (SvgPreview.tsx 280-290). -/
def nzViewBox (a : List (String × String)) : List (String × String) :=
  if (attrGet a "viewBox").getD "" = "" then
    (if nzW a ≠ "" ∧ nzH a ≠ "" ∧ hasSubstr (nzW a) "%" = false
        ∧ hasSubstr (nzH a) "%" = false then
      attrPut a "viewBox" ("0 0 " ++ numStr (nzW a) ++ " " ++ numStr (nzH a))
    else attrPut a "viewBox" "0 0 512 512")
  else a

/-- `viewBox.split(/[\s,]+/)` (the parseFloat map commutes with indexing). -/
def nzParts (a : List (String × String)) : List String :=
  splitSeps ((attrGet a "viewBox").getD "")

/-- Step 3: mirror the width from the viewBox when missing or
percentage-based (SvgPreview.tsx 293-297). -/
def nzWidth (a : List (String × String)) : List (String × String) :=
  if 4 ≤ (nzParts a).length ∧ (nzW a = "" ∨ hasSubstr (nzW a) "%" = true) then
    attrPut a "width" (numStr ((nzParts a).getD 2 ""))
  else a

/-- Step 4: likewise for the height. -/
def nzHeight (a : List (String × String)) : List (String × String) :=
  if 4 ≤ (nzParts a).length ∧ (nzH a = "" ∨ hasSubstr (nzH a) "%" = true) then
    attrPut a "height" (numStr ((nzParts a).getD 3 ""))
  else a

def normalizeAttrs (a : List (String × String)) : List (String × String) :=
  nzHeight (nzWidth (nzViewBox (nzXmlns a)))

/-- The whole normalization on the parsed `svg` element. -/
def normalizeDoc (salt : String) : Elem → Elem
  | .mk t a s c x => .mk t (normalizeAttrs a) s (assignIdsF salt c 0).1 x

/-- `normalizeSvg`: parse, normalize, re-serialize; parse failure returns the
input unchanged. -/
def normalizeSvg {σ : Type} (parse : σ → Option Elem) (ser : Elem → σ)
    (salt : String) (s : σ) : σ :=
  match parse s with
  | none => s
  | some svg => ser (normalizeDoc salt svg)

/-! ### Idempotence of normalization -/

theorem ne_empty_of_length_pos (s : String) (h : 0 < s.length) : s ≠ "" := by
  intro he
  rw [he] at h
  simp at h

theorem genId_ne_empty (t : String) (n : ℕ) (salt : String) :
    (strLower t ++ "_" ++ toString n ++ "_" ++ salt) ≠ "" := by
  apply ne_empty_of_length_pos
  simp only [String.length_append]
  rw [show ("_" : String).length = 1 from rfl]
  omega

theorem assignIdAttr_ne_empty (t salt : String) (n : ℕ)
    (a : List (String × String)) :
    (attrGet (assignIdAttr t salt n a) "id").getD "" ≠ "" := by
  unfold assignIdAttr
  split
  · rw [attrGet_put_same]
    exact genId_ne_empty t n salt
  · next h => exact h

theorem nzXmlns_other (a : List (String × String)) (k : String)
    (hk : k ≠ "xmlns") : attrGet (nzXmlns a) k = attrGet a k := by
  unfold nzXmlns
  split
  · exact attrGet_put_other a "xmlns" svgNS k hk
  · rfl

theorem nzViewBox_other (a : List (String × String)) (k : String)
    (hk : k ≠ "viewBox") : attrGet (nzViewBox a) k = attrGet a k := by
  unfold nzViewBox
  split
  · split
    · exact attrGet_put_other a "viewBox" _ k hk
    · exact attrGet_put_other a "viewBox" _ k hk
  · rfl

theorem nzWidth_other (a : List (String × String)) (k : String)
    (hk : k ≠ "width") : attrGet (nzWidth a) k = attrGet a k := by
  unfold nzWidth
  split
  · exact attrGet_put_other a "width" _ k hk
  · rfl

theorem nzHeight_other (a : List (String × String)) (k : String)
    (hk : k ≠ "height") : attrGet (nzHeight a) k = attrGet a k := by
  unfold nzHeight
  split
  · exact attrGet_put_other a "height" _ k hk
  · rfl

theorem nzXmlns_keeps (a : List (String × String)) :
    (attrGet (nzXmlns a) "xmlns").getD "" ≠ "" := by
  unfold nzXmlns
  split
  · rw [attrGet_put_same]
    decide
  · next h => exact h

theorem nzViewBox_keeps (a : List (String × String)) :
    (attrGet (nzViewBox a) "viewBox").getD "" ≠ "" := by
  unfold nzViewBox
  split
  · split
    · rw [attrGet_put_same]
      show ("0 0 " ++ _ ++ " " ++ _ : String) ≠ ""
      apply ne_empty_of_length_pos
      simp only [String.length_append]
      rw [show ("0 0 " : String).length = 4 from rfl]
      omega
    · rw [attrGet_put_same]
      decide
  · next h => exact h

theorem normalizeAttrs_idem (a : List (String × String)) :
    normalizeAttrs (normalizeAttrs a) = normalizeAttrs a := by
  unfold normalizeAttrs
  set a1 := nzXmlns a with ha1
  set a2 := nzViewBox a1 with ha2
  set a3 := nzWidth a2 with ha3
  set a4 := nzHeight a3 with ha4
  have hx4 : attrGet a4 "xmlns" = attrGet a1 "xmlns" := by
    rw [ha4, nzHeight_other a3 "xmlns" (by decide), ha3,
      nzWidth_other a2 "xmlns" (by decide), ha2,
      nzViewBox_other a1 "xmlns" (by decide)]
  have h1 : nzXmlns a4 = a4 := by
    unfold nzXmlns
    rw [if_neg (by rw [hx4, ha1]; exact nzXmlns_keeps a)]
  have hvb4 : attrGet a4 "viewBox" = attrGet a2 "viewBox" := by
    rw [ha4, nzHeight_other a3 "viewBox" (by decide), ha3,
      nzWidth_other a2 "viewBox" (by decide)]
  have h2 : nzViewBox a4 = a4 := by
    unfold nzViewBox
    rw [if_neg (by rw [hvb4, ha2]; exact nzViewBox_keeps a1)]
  have hparts4 : nzParts a4 = nzParts a2 := by
    unfold nzParts
    rw [hvb4]
  have h3 : nzWidth a4 = a4 := by
    by_cases hc3 : 4 ≤ (nzParts a2).length
        ∧ (nzW a2 = "" ∨ hasSubstr (nzW a2) "%" = true)
    · have ha3e : a3 = attrPut a2 "width" (numStr ((nzParts a2).getD 2 "")) := by
        rw [ha3]
        unfold nzWidth
        rw [if_pos hc3]
      have hw4 : attrGet a4 "width" = some (numStr ((nzParts a2).getD 2 "")) := by
        rw [ha4, nzHeight_other a3 "width" (by decide), ha3e, attrGet_put_same]
      unfold nzWidth
      split
      · rw [hparts4, attrPut_of_get a4 "width" _ hw4]
      · rfl
    · have ha3e : a3 = a2 := by
        rw [ha3]
        unfold nzWidth
        rw [if_neg hc3]
      have hw4 : attrGet a4 "width" = attrGet a2 "width" := by
        rw [ha4, nzHeight_other a3 "width" (by decide), ha3e]
      have hnzw : nzW a4 = nzW a2 := by
        unfold nzW
        rw [hw4]
      unfold nzWidth
      rw [if_neg (by rw [hparts4, hnzw]; exact hc3)]
  have h4 : nzHeight a4 = a4 := by
    by_cases hc4 : 4 ≤ (nzParts a3).length
        ∧ (nzH a3 = "" ∨ hasSubstr (nzH a3) "%" = true)
    · have ha4e : a4 = attrPut a3 "height" (numStr ((nzParts a3).getD 3 "")) := by
        rw [ha4]
        unfold nzHeight
        rw [if_pos hc4]
      have hh4 : attrGet a4 "height" = some (numStr ((nzParts a3).getD 3 "")) := by
        rw [ha4e, attrGet_put_same]
      have hpp : nzParts a4 = nzParts a3 := by
        unfold nzParts
        rw [ha4e, attrGet_put_other _ _ _ _ (by decide)]
      unfold nzHeight
      split
      · rw [hpp, attrPut_of_get a4 "height" _ hh4]
      · rfl
    · have ha4e : a4 = a3 := by
        rw [ha4]
        unfold nzHeight
        rw [if_neg hc4]
      have hh4 : nzH a4 = nzH a3 := by
        unfold nzH
        rw [ha4e]
      have hpp : nzParts a4 = nzParts a3 := by
        rw [ha4e]
      unfold nzHeight
      rw [if_neg (by rw [hpp, hh4]; exact hc4)]
  rw [h1, h2, h3, h4]

mutual
theorem idsOk_assign (salt : String) :
    ∀ (e : Elem) (n : ℕ), idsOkE (assignIdsE salt e n).1 = true
  | .mk t a s c x, n => by
    unfold assignIdsE
    by_cases ht : selTags.contains t = true
    · rw [if_pos ht]
      show ((!(selTags.contains t)
          || !(decide ((attrGet (assignIdAttr t salt n a) "id").getD "" = "")))
        && idsOkF (assignIdsF salt c (n + 1)).1) = true
      rw [idsOkF_assign salt c (n + 1)]
      rw [show (decide ((attrGet (assignIdAttr t salt n a) "id").getD "" = ""))
          = false from by simp [assignIdAttr_ne_empty t salt n a]]
      simp
    · rw [if_neg ht]
      show ((!(selTags.contains t)
          || !(decide ((attrGet a "id").getD "" = "")))
        && idsOkF (assignIdsF salt c n).1) = true
      rw [idsOkF_assign salt c n]
      have ht2 : selTags.contains t = false := by
        cases hcc : selTags.contains t
        · rfl
        · exact absurd hcc ht
      rw [ht2]
      simp
theorem idsOkF_assign (salt : String) :
    ∀ (f : Forest) (n : ℕ), idsOkF (assignIdsF salt f n).1 = true
  | .nil, _ => rfl
  | .cons e f, n => by
    unfold assignIdsF
    show (idsOkE (assignIdsE salt e n).1
      && idsOkF (assignIdsF salt f (assignIdsE salt e n).2).1) = true
    rw [idsOk_assign salt e n, idsOkF_assign salt f _]
    rfl
end

mutual
theorem assignE_stable (salt : String) :
    ∀ (e : Elem), idsOkE e = true → ∀ n, (assignIdsE salt e n).1 = e
  | .mk t a s c x, h, n => by
    have h2 : ((!(selTags.contains t) || !(decide ((attrGet a "id").getD "" = "")))
        && idsOkF c) = true := h
    rw [Bool.and_eq_true] at h2
    unfold assignIdsE
    by_cases ht : selTags.contains t = true
    · rw [if_pos ht]
      have hid : (attrGet a "id").getD "" ≠ "" := by
        have h3 := h2.1
        rw [ht] at h3
        simpa using h3
      show Elem.mk t (assignIdAttr t salt n a) s (assignIdsF salt c (n + 1)).1 x
        = Elem.mk t a s c x
      rw [assignF_stable salt c h2.2 (n + 1)]
      rw [show assignIdAttr t salt n a = a from by
        unfold assignIdAttr
        rw [if_neg hid]]
    · rw [if_neg ht]
      show Elem.mk t a s (assignIdsF salt c n).1 x = Elem.mk t a s c x
      rw [assignF_stable salt c h2.2 n]
theorem assignF_stable (salt : String) :
    ∀ (f : Forest), idsOkF f = true → ∀ n, (assignIdsF salt f n).1 = f
  | .nil, _, _ => rfl
  | .cons e f, h, n => by
    have h2 : (idsOkE e && idsOkF f) = true := h
    rw [Bool.and_eq_true] at h2
    unfold assignIdsF
    show Forest.cons (assignIdsE salt e n).1
        (assignIdsF salt f (assignIdsE salt e n).2).1 = .cons e f
    rw [assignE_stable salt e h2.1 n, assignF_stable salt f h2.2 _]
end

theorem normalizeDoc_idem (s1 s2 : String) (e : Elem) :
    normalizeDoc s2 (normalizeDoc s1 e) = normalizeDoc s1 e := by
  cases e with
  | mk t a s c x =>
    show Elem.mk t (normalizeAttrs (normalizeAttrs a)) s
        (assignIdsF s2 (assignIdsF s1 c 0).1 0).1 x
      = Elem.mk t (normalizeAttrs a) s (assignIdsF s1 c 0).1 x
    rw [normalizeAttrs_idem]
    rw [assignF_stable s2 (assignIdsF s1 c 0).1 (idsOkF_assign s1 c 0) 0]

/-- Claim C9: normalization is idempotent — for every input document text, a
second normalization of a normalized document yields byte-identical output
(the serializer is a function, so equal documents serialize equally).  The
parse/serialize pair stands for the browser's `DOMParser`/`outerHTML` and
enters as a parameter with the round-trip property; on parse failure
`normalizeSvg` returns its input unchanged, which is idempotent trivially.
The timestamp salts of the two passes may differ: the second pass assigns no
ids because the first left every paintable element with a nonempty id. -/
theorem normalizeSvg_idempotent {σ : Type} (parse : σ → Option Elem)
    (ser : Elem → σ) (salt1 salt2 : String) (s : σ)
    (hrt : ∀ d : Elem, parse (ser d) = some d) :
    normalizeSvg parse ser salt2 (normalizeSvg parse ser salt1 s)
      = normalizeSvg parse ser salt1 s := by
  cases hp : parse s with
  | none =>
    unfold normalizeSvg
    rw [hp]
    show (match parse s with
      | none => s
      | some svg => ser (normalizeDoc salt2 svg)) = s
    rw [hp]
  | some d =>
    unfold normalizeSvg
    rw [hp]
    show (match parse (ser (normalizeDoc salt1 d)) with
      | none => ser (normalizeDoc salt1 d)
      | some svg => ser (normalizeDoc salt2 svg)) = ser (normalizeDoc salt1 d)
    rw [hrt (normalizeDoc salt1 d)]
    show ser (normalizeDoc salt2 (normalizeDoc salt1 d)) = ser (normalizeDoc salt1 d)
    rw [normalizeDoc_idem]

/-- Witness for C9: the identity parse/serialize pair over `Option Elem`
(whose round trip holds by `rfl`) and a concrete one-rect document. -/
theorem normalizeSvg_idempotent_witness :
    (∀ d : Elem, (fun x : Option Elem => x) (some d) = some d) ∧
    normalizeSvg (fun x : Option Elem => x) some "saltB"
        (normalizeSvg (fun x : Option Elem => x) some "saltA"
          (some (.mk "svg" [] [] (.cons (.mk "rect" [] [] .nil "") .nil) "")))
      = normalizeSvg (fun x : Option Elem => x) some "saltA"
          (some (.mk "svg" [] [] (.cons (.mk "rect" [] [] .nil "") .nil) "")) :=
  ⟨fun _ => rfl,
    normalizeSvg_idempotent (fun x => x) some "saltA" "saltB"
      (some (.mk "svg" [] [] (.cons (.mk "rect" [] [] .nil "") .nil) ""))
      (fun _ => rfl)⟩

end SvgStudio
